import Mathlib

/-!
# TinyShell job control: a shallow embedding of `src/tiny_shell.c`

The C globals (`jobs`, `next_jid`, `shell_pgid`, `sigchld_flag`) become the
fields of `Shell`; every C function becomes a function on `Shell` that also
returns the system calls and output it performs, in order.  Results of system
calls (`fork`, `kill`, `waitpid`, ...) are inputs of the model.

Conventions: C `int` and `pid_t` are `Int`; a `Job *` is the index of a slot
(`Option Nat`, `none` for `NULL`); a C string is a `String` without NUL, one
`Char` per C `char`.
-/

namespace TinyShell

/-! ## Constants and data model (lines 15-45) -/

def MAX_ARGS : Nat := 128
def MAX_CMDS : Nat := 64
def MAX_JOBS : Nat := 128
def CMDLINE_LEN : Nat := 1024
def INT_MAX : Int := 2147483647

/-- Two's-complement wrap of an `int` result. -/
def wrap32 (x : Int) : Int := (x + 2147483648) % 4294967296 - 2147483648

inductive job_status_t where
  | JOB_RUNNING
  | JOB_STOPPED
  | JOB_DONE
deriving DecidableEq, Repr

open job_status_t

structure Job where
  jid : Int
  pgid : Int
  cmdline : String
  status : job_status_t
  is_background : Int
deriving DecidableEq, Repr

structure Command where
  argv : List String
  infile : Option String
  outfile : Option String
  out_append : Int
  errfile : Option String
deriving DecidableEq, Repr

/-- The globals of the shell. `jobs` stands for the array `jobs[MAX_JOBS]`. -/
structure Shell where
  jobs : List Job
  next_jid : Int
  shell_pgid : Int
  sigchld_flag : Int
deriving DecidableEq, Repr

/-- A slot after `memset(jobs, 0, sizeof(jobs))`: all fields zero
(`JOB_RUNNING` is the enumerator 0). -/
def zeroJob : Job :=
  { jid := 0, pgid := 0, cmdline := "", status := JOB_RUNNING, is_background := 0 }

/-- The globals when `main` enters its loop: the table zeroed, `next_jid = 1`. -/
def initShell (shell_pgid : Int) : Shell :=
  { jobs := List.replicate MAX_JOBS zeroJob, next_jid := 1,
    shell_pgid := shell_pgid, sigchld_flag := 0 }

/-! ## Job table helpers (lines 59-113) -/

/-- The scan `for (i = 0; i < MAX_JOBS; ++i) if (p(jobs[i])) return i;`. -/
def findSlot (p : Job → Bool) : List Job → Option Nat
  | [] => none
  | j :: js => if p j then some 0 else (findSlot p js).map (· + 1)

/-- Assignment through a slot pointer: `jobs[i] = f (jobs[i])`. -/
def setSlot (f : Job → Job) : List Job → Nat → List Job
  | [], _ => []
  | j :: js, 0 => f j :: js
  | j :: js, n + 1 => j :: setSlot f js n

/-- The first `n` characters of a C string (all of it when it is shorter). -/
def firstChars (n : Nat) (s : String) : String := String.mk (s.data.take n)

/-- The pair `strncpy(dst, src, CMDLINE_LEN-1); dst[CMDLINE_LEN-1] = 0`. -/
def strncpyCmdline (src : String) : String := firstChars (CMDLINE_LEN - 1) src

/-- The slot contents written by the body of the `if` in `job_add`. -/
def freshJob (jid pgid : Int) (cmdline : String) (bg : Int) : Job :=
  { jid := jid, pgid := pgid, cmdline := strncpyCmdline cmdline,
    status := JOB_RUNNING, is_background := bg }

def job_add (sh : Shell) (pgid : Int) (cmdline : String) (bg : Int) : Int × Shell :=
  match findSlot (fun j => j.jid == 0) sh.jobs with
  | some i =>
      (sh.next_jid,
        { sh with
          jobs := setSlot (fun _ => freshJob sh.next_jid pgid cmdline bg) sh.jobs i
          next_jid := wrap32 (sh.next_jid + 1) })
  | none => (-1, sh)

/-- The assignment `j->status = s`. -/
def withStatus (s : job_status_t) (x : Job) : Job := { x with status := s }

/-- The assignments `j->status = s; j->is_background = bg`. -/
def withStatusBg (s : job_status_t) (bg : Int) (x : Job) : Job :=
  { x with status := s, is_background := bg }

/-- A slot after the five assignments of `job_remove_jid`. -/
def removedJob : Job :=
  { jid := 0, pgid := 0, cmdline := "", status := JOB_DONE, is_background := 0 }

def job_by_jid (sh : Shell) (jid : Int) : Option Nat :=
  findSlot (fun j => j.jid == jid) sh.jobs

def job_by_pgid (sh : Shell) (pgid : Int) : Option Nat :=
  findSlot (fun j => j.jid != 0 && j.pgid == pgid) sh.jobs

def job_mark_done (sh : Shell) (pgid : Int) : Shell :=
  match job_by_pgid sh pgid with
  | some i => { sh with jobs := setSlot (withStatusBg JOB_DONE 0) sh.jobs i }
  | none => sh

def job_mark_stopped (sh : Shell) (pgid : Int) : Shell :=
  match job_by_pgid sh pgid with
  | some i => { sh with jobs := setSlot (withStatus JOB_STOPPED) sh.jobs i }
  | none => sh

def job_mark_running (sh : Shell) (pgid : Int) : Shell :=
  match job_by_pgid sh pgid with
  | some i => { sh with jobs := setSlot (withStatus JOB_RUNNING) sh.jobs i }
  | none => sh

def job_remove_jid (sh : Shell) (jid : Int) : Shell :=
  match job_by_jid sh jid with
  | none => sh
  | some i => { sh with jobs := setSlot (fun _ => removedJob) sh.jobs i }

/-- The label chosen by the conditional in `print_job_status`. -/
def statusLabel (s : job_status_t) : String :=
  if s = JOB_RUNNING then "Running" else if s = JOB_STOPPED then "Stopped" else "Done"

/-- The text of `printf("[%d] %d %s\t%s\n", j->jid, j->pgid, stat, j->cmdline)`. -/
def jobLine (j : Job) : String :=
  "[" ++ toString j.jid ++ "] " ++ toString j.pgid ++ " " ++ statusLabel j.status
    ++ "\t" ++ j.cmdline ++ "\n"

/-! ## Runs of job-table calls -/

/-- One call of a job-table helper. -/
inductive TableOp where
  | add (pgid : Int) (cmdline : String) (bg : Int)
  | remove (jid : Int)
  | markDone (pgid : Int)
  | markStopped (pgid : Int)
  | markRunning (pgid : Int)
deriving DecidableEq, Repr

def applyOp (sh : Shell) : TableOp → Shell
  | .add pgid cmdline bg => (job_add sh pgid cmdline bg).2
  | .remove jid => job_remove_jid sh jid
  | .markDone pgid => job_mark_done sh pgid
  | .markStopped pgid => job_mark_stopped sh pgid
  | .markRunning pgid => job_mark_running sh pgid

def runOps (sh : Shell) : List TableOp → Shell
  | [] => sh
  | op :: ops => runOps (applyOp sh op) ops

/-- The values returned by the successful `job_add` calls of a run, in order. -/
def addResults (sh : Shell) : List TableOp → List Int
  | [] => []
  | .add pgid cmdline bg :: ops =>
      let r := job_add sh pgid cmdline bg
      if r.1 = -1 then addResults r.2 ops else r.1 :: addResults r.2 ops
  | op :: ops => addResults (applyOp sh op) ops

/-- No `next_jid++` of the run overflows: whenever `job_add` finds a free slot,
and so increments `next_jid`, `next_jid` is below `INT_MAX`. -/
def noOverflow (sh : Shell) : List TableOp → Bool
  | [] => true
  | .add pgid cmdline bg :: ops =>
      ((findSlot (fun j => j.jid == 0) sh.jobs).isNone || decide (sh.next_jid < INT_MAX)) &&
        noOverflow (job_add sh pgid cmdline bg).2 ops
  | op :: ops => noOverflow (applyOp sh op) ops

/-- Any two different slots whose jid is non-zero hold different jids. -/
def IdsDistinct (jobs : List Job) : Prop :=
  ∀ (i k : Nat) (a b : Job), jobs[i]? = some a → jobs[k]? = some b → i ≠ k →
    a.jid ≠ 0 → b.jid ≠ 0 → a.jid ≠ b.jid

/-- Invariant of the table: `next_jid` is positive, every non-zero jid in the
table is below `next_jid`, and non-zero jids are pairwise distinct. -/
def TableInv (sh : Shell) : Prop :=
  0 < sh.next_jid ∧
  (∀ (i : Nat) (a : Job), sh.jobs[i]? = some a → a.jid ≠ 0 → a.jid < sh.next_jid) ∧
  IdsDistinct sh.jobs

/-! ## System interface

Values of the POSIX constants on Linux, the statuses `waitpid` reports, and
the observable actions of the shell process. -/

def STDIN_FILENO : Int := 0
def SIGCONT : Int := 18
def ECHILD : Int := 10
def WNOHANG : Int := 1
def WUNTRACED : Int := 2
def WCONTINUED : Int := 8

/-- What a status word returned by `waitpid` says about the child. -/
inductive WStatus where
  | exited (code : Int)
  | signaled (sig : Int)
  | stopped (sig : Int)
  | continued
deriving DecidableEq, Repr

def WIFEXITED : WStatus → Bool
  | .exited _ => true
  | _ => false

def WIFSIGNALED : WStatus → Bool
  | .signaled _ => true
  | _ => false

def WIFSTOPPED : WStatus → Bool
  | .stopped _ => true
  | _ => false

def WIFCONTINUED : WStatus → Bool
  | .continued => true
  | _ => false

/-- One result of the non-blocking `waitpid(-1, ...)` of the reaper together
with the result of the `getpgid(pid)` that follows it. -/
structure ChildEvent where
  pid : Int
  status : WStatus
  getpgid : Int
deriving DecidableEq, Repr

/-- One result of a blocking `waitpid(-pgid, &status, WUNTRACED)`: the value
returned, `errno` (read when the value is negative) and the status word. -/
structure WaitRes where
  w : Int
  errno : Int
  status : WStatus
deriving DecidableEq, Repr

/-- Actions of the shell process visible outside it, in program order. -/
inductive Eff where
  | stdout (s : String)
  | stderr (s : String)
  | perror (tag : String)
  | kill (pid : Int) (sig : Int)
  | tcsetpgrp (fd : Int) (pgrp : Int)
  | waitpid (pid : Int) (options : Int)
  | fork
  | pipe (i : Nat)
  | closePipe (i : Nat) (side : Nat)
  | setpgid (pid : Int) (pgid : Int)
  | chdir (path : String)
  | system (cmd : String)
deriving DecidableEq, Repr

/-- How a call ends. -/
inductive Outcome where
  | returned (rv : Int)
  | exited (code : Int)
  | nullDeref
  | blocked
  | child (stage : Nat)
deriving DecidableEq, Repr

/-- The globals, the actions performed and the way the call ended.
`returned rv`: the function returned `rv` (0 for a `void` function);
`exited`: `exit` was called; `nullDeref`: a `NULL` `Job *` was dereferenced;
`blocked`: the blocking `waitpid` has not returned within the supplied results;
`child`: `fork` returned 0 and execution continues in the child process. -/
structure Run where
  sh : Shell
  eff : List Eff
  out : Outcome
deriving DecidableEq, Repr

/-- Results of the system calls a command makes, one field per call site. -/
structure Sys where
  chdirRet : Int
  getcwdRet : Option String
  killRet : Int
  tcsetpgrpRet : Int
  tcsetpgrpRestoreRet : Int
  pipeRet : Nat → Int
  forkRet : Nat → Int
  waits : List WaitRes

/-- Reading through a `Job *`. -/
def deref (sh : Shell) (j : Option Nat) : Option Job :=
  match j with
  | none => none
  | some i => sh.jobs[i]?

/-- The C operator `!` on `int`. -/
def lnot (x : Int) : Int := if x = 0 then 1 else 0

/-! ## Reaper (lines 120-148) -/

/-- The body of the `while` loop of `check_sigchld_and_reap`, one iteration
per positive `waitpid` result; the loop ends at the first result that is not
positive, or when no result is left. -/
def reapLoop (sh : Shell) : List ChildEvent → Shell × List Eff
  | [] => (sh, [Eff.waitpid (-1) (WNOHANG + WUNTRACED + WCONTINUED)])
  | ev :: evs =>
    let call := Eff.waitpid (-1) (WNOHANG + WUNTRACED + WCONTINUED)
    if ev.pid > 0 then
      let pgid := if ev.getpgid < 0 then ev.pid else ev.getpgid
      let step : Shell × List Eff :=
        if WIFEXITED ev.status || WIFSIGNALED ev.status then
          let sh1 := job_mark_done sh pgid
          match deref sh1 (job_by_pgid sh1 pgid) with
          | some j =>
            if j.is_background ≠ 0 then
              (sh1, [Eff.stdout ("\n[" ++ toString j.jid ++ "]+ Done\t" ++ j.cmdline ++ "\n")])
            else (sh1, [])
          | none => (sh1, [])
        else if WIFSTOPPED ev.status then
          let sh1 := job_mark_stopped sh pgid
          match deref sh1 (job_by_pgid sh1 pgid) with
          | some j =>
            (sh1, [Eff.stdout ("\n[" ++ toString j.jid ++ "]+ Stopped\t" ++ j.cmdline ++ "\n")])
          | none => (sh1, [])
        else if WIFCONTINUED ev.status then
          (job_mark_running sh pgid, [])
        else (sh, [])
      let r := reapLoop step.1 evs
      (r.1, call :: step.2 ++ r.2)
    else (sh, [call])

def check_sigchld_and_reap (sh : Shell) (events : List ChildEvent) : Shell × List Eff :=
  if sh.sigchld_flag = 0 then (sh, [])
  else reapLoop { sh with sigchld_flag := 0 } events

/-! ## Built-ins (lines 249-333) -/

/-- The C library predicate `isspace` in the "C" locale. -/
def isspaceC (c : Char) : Bool :=
  c = ' ' || c = '\t' || c = '\n' || c = Char.ofNat 11 || c = Char.ofNat 12 || c = '\r'

/-- The value of the longest prefix of decimal digits, accumulated from `acc`. -/
def digitsVal : Nat → List Char → Nat
  | acc, [] => acc
  | acc, c :: cs => if c.isDigit then digitsVal (acc * 10 + (c.toNat - 48)) cs else acc

/-- The C library function `atoi`: leading white space, an optional sign, then
decimal digits; 0 when no digit follows.  The value is the mathematical one
(out of the range of `int` the C function is undefined). -/
def atoi (cs : List Char) : Int :=
  match cs.dropWhile isspaceC with
  | '-' :: ds => -(digitsVal 0 ds : Int)
  | '+' :: ds => (digitsVal 0 ds : Int)
  | ds => (digitsVal 0 ds : Int)

/-- The `jobs` built-in: `print_job_status` on every slot with `jid != 0`. -/
def jobsListing (sh : Shell) : List Eff :=
  (sh.jobs.filter (fun j => j.jid != 0)).map (fun j => Eff.stdout (jobLine j))

/-- The wait loop of the `fg` built-in (lines 310-325); `j` is the slot found
by `job_by_jid`. -/
def fgWaitLoop (sh : Shell) (j : Nat) : List WaitRes → Run
  | [] =>
    match sh.jobs[j]? with
    | none => ⟨sh, [], .nullDeref⟩
    | some job => ⟨sh, [Eff.waitpid (-job.pgid) WUNTRACED], .blocked⟩
  | r :: rs =>
    match sh.jobs[j]? with
    | none => ⟨sh, [], .nullDeref⟩
    | some job =>
      let call := Eff.waitpid (-job.pgid) WUNTRACED
      if r.w < 0 then
        if r.errno = ECHILD then ⟨sh, [call], .returned 0⟩
        else
          let k := fgWaitLoop sh j rs
          ⟨k.sh, call :: k.eff, k.out⟩
      else if WIFSTOPPED r.status then
        ⟨{ sh with jobs := setSlot (withStatus JOB_STOPPED) sh.jobs j },
          [call, Eff.stdout ("[" ++ toString job.jid ++ "]+ Stopped\t" ++ job.cmdline ++ "\n")],
          .returned 0⟩
      else if WIFEXITED r.status || WIFSIGNALED r.status then
        let sh1 := { sh with jobs := setSlot (withStatus JOB_DONE) sh.jobs j }
        ⟨job_remove_jid sh1 job.jid, [call], .returned 0⟩
      else
        let k := fgWaitLoop sh j rs
        ⟨k.sh, call :: k.eff, k.out⟩

/-- The double quote character of the `find` command line. -/
def dquote : String := String.singleton (Char.ofNat 34)

/-- The branch `cd` of `handle_builtins` (lines 254-258); `rest` is `argv[1..]`. -/
def builtin_cd (sh : Shell) (rest : List String) (sys : Sys) : Run :=
  match rest with
  | [] => ⟨sh, [Eff.stderr "cd: missing operand\n"], .returned 1⟩
  | a1 :: _ =>
    if sys.chdirRet ≠ 0 then ⟨sh, [Eff.chdir a1, Eff.perror "cd"], .returned 1⟩
    else ⟨sh, [Eff.chdir a1], .returned 1⟩

/-- The branch `pwd` of `handle_builtins` (lines 259-264). -/
def builtin_pwd (sh : Shell) (sys : Sys) : Run :=
  match sys.getcwdRet with
  | some buf => ⟨sh, [Eff.stdout (buf ++ "\n")], .returned 1⟩
  | none => ⟨sh, [Eff.perror "pwd"], .returned 1⟩

/-- The branch `find` of `handle_builtins` (lines 265-271). -/
def builtin_find (sh : Shell) (rest : List String) : Run :=
  match rest with
  | [] => ⟨sh, [Eff.stderr "find: missing filename\n"], .returned 1⟩
  | a1 :: _ =>
    ⟨sh, [Eff.system (firstChars 4095 ("find . -name " ++ dquote ++ a1 ++ dquote))], .returned 1⟩

/-- The call `kill(-pgid, SIGCONT)` with the `perror` that follows a failure. -/
def sendCont (pgid : Int) (sys : Sys) : List Eff :=
  Eff.kill (-pgid) SIGCONT :: (if sys.killRet < 0 then [Eff.perror "kill (SIGCONT)"] else [])

/-- The branch `bg` of `handle_builtins` (lines 278-290). -/
def builtin_bg (sh : Shell) (rest : List String) (sys : Sys) : Run :=
  match rest with
  | [] => ⟨sh, [Eff.stderr "bg: missing job spec\n"], .returned 1⟩
  | s :: _ =>
    match s.data with
    | '%' :: tail =>
      let jid := atoi tail
      match job_by_jid sh jid with
      | none => ⟨sh, [Eff.stderr ("bg: no such job " ++ toString jid ++ "\n")], .returned 1⟩
      | some i =>
        match sh.jobs[i]? with
        | none => ⟨sh, [], .nullDeref⟩
        | some job =>
          ⟨{ sh with jobs := setSlot (withStatusBg JOB_RUNNING 1) sh.jobs i },
            sendCont job.pgid sys ++
              [Eff.stdout ("[" ++ toString job.jid ++ "]+ " ++ job.cmdline ++ " &\n")],
            .returned 1⟩
    | _ => ⟨sh, [Eff.stderr "bg: job spec should be %N\n"], .returned 1⟩

/-- The branch `fg` of `handle_builtins` (lines 291-330). -/
def builtin_fg (sh : Shell) (rest : List String) (sys : Sys) : Run :=
  match rest with
  | [] => ⟨sh, [Eff.stderr "fg: missing job spec\n"], .returned 1⟩
  | s :: _ =>
    match s.data with
    | '%' :: tail =>
      let jid := atoi tail
      match job_by_jid sh jid with
      | none => ⟨sh, [Eff.stderr ("fg: no such job " ++ toString jid ++ "\n")], .returned 1⟩
      | some i =>
        match sh.jobs[i]? with
        | none => ⟨sh, [], .nullDeref⟩
        | some job =>
          let sh1 := { sh with jobs := setSlot (withStatusBg JOB_RUNNING 0) sh.jobs i }
          let give := Eff.tcsetpgrp STDIN_FILENO job.pgid ::
            (if sys.tcsetpgrpRet < 0 then [Eff.perror "tcsetpgrp fg"] else [])
          let k := fgWaitLoop sh1 i sys.waits
          match k.out with
          | .returned _ =>
            ⟨k.sh, sendCont job.pgid sys ++ give ++ k.eff ++
              (Eff.tcsetpgrp STDIN_FILENO k.sh.shell_pgid ::
                (if sys.tcsetpgrpRestoreRet < 0 then [Eff.perror "tcsetpgrp restore"] else [])),
              .returned 1⟩
          | o => ⟨k.sh, sendCont job.pgid sys ++ give ++ k.eff, o⟩
    | _ => ⟨sh, [Eff.stderr "fg: job spec should be %N\n"], .returned 1⟩

/-- The function `handle_builtins`: the chain of `strcmp` tests on `argv[0]`,
each branch given above. -/
def handle_builtins (sh : Shell) (c : Command) (sys : Sys) : Run :=
  match c.argv with
  | [] => ⟨sh, [], .returned 0⟩
  | a0 :: rest =>
    if a0 = "exit" then ⟨sh, [], .exited 0⟩
    else if a0 = "cd" then builtin_cd sh rest sys
    else if a0 = "pwd" then builtin_pwd sh sys
    else if a0 = "find" then builtin_find sh rest
    else if a0 = "jobs" then ⟨sh, jobsListing sh, .returned 1⟩
    else if a0 = "bg" then builtin_bg sh rest sys
    else if a0 = "fg" then builtin_fg sh rest sys
    else ⟨sh, [], .returned 0⟩

/-! ## Launching a single command (lines 338-433) -/

/-- The C library call `strncat(dst, src, n)`. -/
def strncat (dst src : String) (n : Nat) : String := dst ++ firstChars n src

/-- The local `cmdline` of `execute_single`: `argv[0]` copied with `strncpy`,
then every further argument appended after a blank with `strncat`, each call
limited to the room left below `CMDLINE_LEN-1`. -/
def buildCmdline (a0 : String) (rest : List String) : String :=
  rest.foldl
    (fun acc a =>
      let acc1 := strncat acc " " (CMDLINE_LEN - 1 - acc.length)
      strncat acc1 a (CMDLINE_LEN - 1 - acc1.length))
    (firstChars (CMDLINE_LEN - 1) a0)

/-- The wait loop of `execute_single` (lines 410-426). -/
def singleWaitLoop (sh : Shell) (j : Option Nat) (pid : Int) : List WaitRes → Run
  | [] => ⟨sh, [Eff.waitpid (-pid) WUNTRACED], .blocked⟩
  | r :: rs =>
    let call := Eff.waitpid (-pid) WUNTRACED
    if r.w < 0 then
      if r.errno = ECHILD then ⟨sh, [call], .returned 0⟩
      else
        let k := singleWaitLoop sh j pid rs
        ⟨k.sh, call :: k.eff, k.out⟩
    else if WIFSTOPPED r.status then
      match j with
      | none => ⟨sh, [call], .nullDeref⟩
      | some i =>
        let sh1 := { sh with jobs := setSlot (withStatusBg JOB_STOPPED 1) sh.jobs i }
        match sh1.jobs[i]? with
        | none => ⟨sh1, [call], .nullDeref⟩
        | some job =>
          ⟨sh1,
            [call, Eff.stdout ("\n[" ++ toString job.jid ++ "]+ Stopped\t" ++ job.cmdline ++ "\n")],
            .returned 0⟩
    else if WIFEXITED r.status || WIFSIGNALED r.status then
      match j with
      | none => ⟨sh, [call], .nullDeref⟩
      | some i =>
        let sh1 := { sh with jobs := setSlot (withStatus JOB_DONE) sh.jobs i }
        match sh1.jobs[i]? with
        | none => ⟨sh1, [call], .nullDeref⟩
        | some job => ⟨job_remove_jid sh1 job.jid, [call], .returned 0⟩
    else
      let k := singleWaitLoop sh j pid rs
      ⟨k.sh, call :: k.eff, k.out⟩

/-- The parent side of `execute_single`; the child side ends in `Outcome.child`. -/
def execute_single (sh : Shell) (c : Command) (foreground : Int) (sys : Sys) : Run :=
  match c.argv with
  | [] => ⟨sh, [], .returned 0⟩
  | a0 :: rest =>
    let b := handle_builtins sh c sys
    match b.out with
    | .returned rv =>
      if rv ≠ 0 then ⟨b.sh, b.eff, .returned 0⟩
      else
        let pid := sys.forkRet 0
        if pid < 0 then ⟨b.sh, b.eff ++ [Eff.fork, Eff.perror "fork"], .returned 0⟩
        else if pid = 0 then ⟨b.sh, b.eff ++ [Eff.fork], .child 0⟩
        else
          let pre := b.eff ++ [Eff.fork, Eff.setpgid pid pid]
          let cmdline := buildCmdline a0 rest
          let added := job_add b.sh pid cmdline (lnot foreground)
          let sh1 := added.2
          let j := job_by_jid sh1 added.1
          if lnot foreground ≠ 0 then
            match deref sh1 j with
            | none => ⟨sh1, pre, .nullDeref⟩
            | some job =>
              ⟨sh1, pre ++ [Eff.stdout ("[" ++ toString job.jid ++ "] " ++ toString pid ++ "\n")],
                .returned 0⟩
          else
            let give := [Eff.tcsetpgrp STDIN_FILENO pid]
            let k := singleWaitLoop sh1 j pid sys.waits
            match k.out with
            | .returned _ =>
              ⟨k.sh, pre ++ give ++ k.eff ++ [Eff.tcsetpgrp STDIN_FILENO k.sh.shell_pgid],
                .returned 0⟩
            | o => ⟨k.sh, pre ++ give ++ k.eff, o⟩
    | _ => b

/-! ## Launching a pipeline (lines 435-547) -/

/-- The loop creating the pipes (lines 441-443): the actions, and whether all
`pipe` calls succeeded. Called with the number of pipes and 0. -/
def makePipes (sys : Sys) : Nat → Nat → List Eff × Bool
  | 0, _ => ([], true)
  | n + 1, i =>
    if sys.pipeRet i < 0 then ([Eff.pipe i, Eff.perror "pipe"], false)
    else
      let r := makePipes sys n (i + 1)
      (Eff.pipe i :: r.1, r.2)

/-- How the fork loop ends. -/
inductive ForkEnd where
  | allForked
  | failed
  | inChild (stage : Nat)
deriving DecidableEq, Repr

/-- The state of the fork loop when it ends. -/
structure Forked where
  pgid : Int
  pids : List Int
  eff : List Eff
  how : ForkEnd
deriving DecidableEq, Repr

/-- The fork loop (lines 445-513) in the parent: arguments are the number of
stages left, the stage index `i`, and the locals `pgid` and `pids[0..i)`. -/
def forkStages (sys : Sys) (num_cmds : Nat) : Nat → Nat → Int → List Int → Forked
  | 0, _, pgid, pids => ⟨pgid, pids, [], .allForked⟩
  | n + 1, i, pgid, pids =>
    let pid := sys.forkRet i
    if pid < 0 then
      ⟨pgid, pids, Eff.fork :: Eff.perror "fork" :: pids.map (fun p => Eff.waitpid p 0), .failed⟩
    else if pid = 0 then ⟨pgid, pids, [Eff.fork], .inChild i⟩
    else
      let pgid1 := if i = 0 then pid else pgid
      let closes :=
        (if i > 0 then [Eff.closePipe (i - 1) 0] else []) ++
        (if i + 1 < num_cmds then [Eff.closePipe i 1] else [])
      let r := forkStages sys num_cmds n (i + 1) pgid1 (pids ++ [pid])
      ⟨r.pgid, r.pids, Eff.fork :: Eff.setpgid pid pgid1 :: closes ++ r.eff, r.how⟩

/-- The wait loop of `execute_pipeline` (lines 528-543). -/
def pipelineWaitLoop (sh : Shell) (j : Option Nat) (pgid : Int) : List WaitRes → Run
  | [] => ⟨sh, [Eff.waitpid (-pgid) WUNTRACED], .blocked⟩
  | r :: rs =>
    let call := Eff.waitpid (-pgid) WUNTRACED
    if r.w < 0 then
      if r.errno = ECHILD then ⟨sh, [call], .returned 0⟩
      else
        let k := pipelineWaitLoop sh j pgid rs
        ⟨k.sh, call :: k.eff, k.out⟩
    else if WIFSTOPPED r.status then
      let sh1 := job_mark_stopped sh pgid
      match deref sh1 j with
      | none => ⟨sh1, [call], .nullDeref⟩
      | some job =>
        ⟨sh1,
          [call, Eff.stdout ("\n[" ++ toString job.jid ++ "]+ Stopped\t" ++ job.cmdline ++ "\n")],
          .returned 0⟩
    else if WIFEXITED r.status || WIFSIGNALED r.status then
      let sh1 := job_mark_done sh pgid
      match deref sh1 j with
      | none => ⟨sh1, [call], .nullDeref⟩
      | some job => ⟨job_remove_jid sh1 job.jid, [call], .returned 0⟩
    else
      let k := pipelineWaitLoop sh j pgid rs
      ⟨k.sh, call :: k.eff, k.out⟩

set_option linter.unusedVariables false in
/-- The parent side of `execute_pipeline`; `cmds.length` is `num_cmds`. The
parameter `foreground` is not read, as in the source. -/
def execute_pipeline (sh : Shell) (cmds : List Command) (foreground background_flag : Int)
    (orig_line : String) (sys : Sys) : Run :=
  let num_cmds := cmds.length
  let pipes := makePipes sys (num_cmds - 1) 0
  if pipes.2 = false then ⟨sh, pipes.1, .returned 0⟩
  else
    let f := forkStages sys num_cmds num_cmds 0 0 []
    match f.how with
    | .failed => ⟨sh, pipes.1 ++ f.eff, .returned 0⟩
    | .inChild i => ⟨sh, pipes.1 ++ f.eff, .child i⟩
    | .allForked =>
      let pre := pipes.1 ++ f.eff
      let pgid := f.pgid
      let added := job_add sh pgid orig_line background_flag
      let sh1 := added.2
      let j := job_by_jid sh1 added.1
      if background_flag ≠ 0 then
        match deref sh1 j with
        | none => ⟨sh1, pre, .nullDeref⟩
        | some job =>
          ⟨sh1, pre ++ [Eff.stdout ("[" ++ toString job.jid ++ "] " ++ toString pgid ++ "\n")],
            .returned 0⟩
      else
        let give := Eff.tcsetpgrp STDIN_FILENO pgid ::
          (if sys.tcsetpgrpRet < 0 then [Eff.perror "tcsetpgrp"] else [])
        let k := pipelineWaitLoop sh1 j pgid sys.waits
        match k.out with
        | .returned _ =>
          ⟨k.sh, pre ++ give ++ k.eff ++
            (Eff.tcsetpgrp STDIN_FILENO k.sh.shell_pgid ::
              (if sys.tcsetpgrpRestoreRet < 0 then [Eff.perror "tcsetpgrp restore"] else [])),
            .returned 0⟩
        | o => ⟨k.sh, pre ++ give ++ k.eff, o⟩

/-- The dispatch at the end of the loop body of `main` (lines 625-636) for a
parsed line with at least one command. -/
def dispatch (sh : Shell) (cmds : List Command) (background_flag : Int) (line : String)
    (sys : Sys) : Run :=
  match cmds with
  | [c] =>
    let b := handle_builtins sh c sys
    match b.out with
    | .returned rv =>
      if rv ≠ 0 then ⟨b.sh, b.eff, .returned 0⟩
      else
        let e := execute_single b.sh c (lnot background_flag) sys
        ⟨e.sh, b.eff ++ e.eff, e.out⟩
    | _ => b
  | _ => execute_pipeline sh cmds (lnot background_flag) background_flag line sys

/-! ## Launch conditions -/

/-- The names `handle_builtins` compares `argv[0]` with. -/
def builtinNames : List String := ["exit", "cd", "pwd", "find", "jobs", "bg", "fg"]

/-- The command is started as external processes in the parent: a single
command is not a built-in and its `fork` returns a child pid; for a pipeline
every `pipe` succeeds and every `fork` returns a child pid. -/
def launchOk (cmds : List Command) (sys : Sys) : Prop :=
  match cmds with
  | [c] => (∃ a0 rest, c.argv = a0 :: rest ∧ a0 ∉ builtinNames) ∧ 0 < sys.forkRet 0
  | _ => 2 ≤ cmds.length ∧ (∀ i : Nat, i + 1 < cmds.length → 0 ≤ sys.pipeRet i) ∧
      ∀ i : Nat, i < cmds.length → 0 < sys.forkRet i

/-- The display text the launch passes to `job_add`: the rebuilt command line
for a single command, the input line for a pipeline. -/
def launchText (cmds : List Command) (line : String) : String :=
  match cmds with
  | [c] =>
    match c.argv with
    | a0 :: rest => buildCmdline a0 rest
    | [] => ""
  | _ => line

/-- A command with the given words and no redirection. -/
def plainCmd (argv : List String) : Command :=
  { argv := argv, infile := none, outfile := none, out_append := 0, errfile := none }

/-- The command `jobs`. -/
def jobsCmd : Command := plainCmd ["jobs"]

/-- System-call results of a run in which every call succeeds, the `i`-th
`fork` returns `firstPid + i`, and the blocking `waitpid` returns `waits`. -/
def sysOk (firstPid : Int) (waits : List WaitRes) : Sys :=
  { chdirRet := 0, getcwdRet := some "/", killRet := 0, tcsetpgrpRet := 0,
    tcsetpgrpRestoreRet := 0, pipeRet := fun _ => 0, forkRet := fun i => firstPid + i,
    waits := waits }

/-! ## Concrete tables -/

/-- The table after 128 background launches of `sleep 100` with the process
ids 1000, ..., 1127: every slot holds an active job. -/
def fullShell : Shell :=
  runOps (initShell 7) ((List.range MAX_JOBS).map (fun i => TableOp.add (1000 + i) "sleep 100" 1))

/-- A table with the stopped job `vim` (jid 1, group 100: `job_add`, then
`job_mark_stopped`) and the running background job `sleep 100` (jid 2). -/
def stoppedShell : Shell :=
  runOps (initShell 7) [.add 100 "vim" 0, .markStopped 100, .add 101 "sleep 100" 1]

/-- The stopped job of `stoppedShell`. -/
def vimJob : Job :=
  { jid := 1, pgid := 100, cmdline := "vim", status := JOB_STOPPED, is_background := 0 }

/-! ## Reading a trace -/

/-- The arguments of an action that is a `tcsetpgrp` call. -/
def tcArgs : Eff → Option (Int × Int)
  | .tcsetpgrp fd pgrp => some (fd, pgrp)
  | _ => none

/-- The arguments of the last `tcsetpgrp` call of a trace. -/
def lastTcsetpgrp : List Eff → Option (Int × Int)
  | [] => none
  | e :: es => (lastTcsetpgrp es).or (tcArgs e)

/-- The trace contains a call of the blocking `waitpid(..., WUNTRACED)` of a
foreground wait loop. -/
def enteredWait (eff : List Eff) : Bool :=
  eff.any (fun e =>
    match e with
    | .waitpid _ options => options == WUNTRACED
    | _ => false)

/-- A run either never calls the blocking `waitpid`, or ends its trace with
the `tcsetpgrp` that gives the terminal to the group `pg` (followed at most by
the `perror` of its failure), or does not return. -/
def WaitRestores (pg : Int) (r : Run) : Prop :=
  enteredWait r.eff = false ∨
  (∃ pre post : List Eff,
    r.eff = pre ++ Eff.tcsetpgrp STDIN_FILENO pg :: post ∧ lastTcsetpgrp post = none) ∨
  (∀ rv, r.out ≠ Outcome.returned rv)

/-- A `waitpid` result on which the foreground wait loops leave the loop: the
error `ECHILD`, or a child that stopped, exited or was killed by a signal. -/
def endsWait (r : WaitRes) : Bool :=
  if r.w < 0 then r.errno == ECHILD
  else WIFSTOPPED r.status || (WIFEXITED r.status || WIFSIGNALED r.status)

/-- The globals after `sleep 1 &` was launched from the initial table (child
pid 100) and the `SIGCHLD` handler has set the flag. -/
def bgSleepShell : Shell :=
  { (dispatch (initShell 7) [plainCmd ["sleep", "1"]] 1 "sleep 1" (sysOk 100 [])).sh with
    sigchld_flag := 1 }

/-- The event "process 100, of group 100, exited with status 0". -/
def exit100 : ChildEvent := { pid := 100, status := .exited 0, getpgid := 100 }

/-- The action writes to the user: `printf`, `fprintf(stderr, ...)` or `perror`. -/
def isReport : Eff → Bool
  | .stdout _ => true
  | .stderr _ => true
  | .perror _ => true
  | _ => false

/-- The globals after the reaper has processed the exit of the background job
of `bgSleepShell`: the job is left in the table with status Done. -/
def doneShell : Shell := (check_sigchld_and_reap bgSleepShell [exit100]).1

/-- The globals after `A | B &` was launched from the initial table (child
pids 100 and 101, group 100) and the `SIGCHLD` handler has set the flag. -/
def bgPipeShell : Shell :=
  { (dispatch (initShell 7) [plainCmd ["A"], plainCmd ["B"]] 1 "A | B" (sysOk 100 [])).sh with
    sigchld_flag := 1 }

/-- The process group the reaper resolves for an event: `getpgid(pid)`, or
the pid itself when `getpgid` fails (lines 127-128). -/
def eventGroup (ev : ChildEvent) : Int := if ev.getpgid < 0 then ev.pid else ev.getpgid

/-- The job of `bgPipeShell`. -/
def pipeJob : Job :=
  { jid := 1, pgid := 100, cmdline := "A | B", status := JOB_RUNNING, is_background := 1 }

/-! ## Parser (lines 202-246) and the loop body of `main` (lines 607-636) -/

/-- A `Command` after `memset(&cmds[i], 0, sizeof(Command))`. -/
def zeroCommand : Command :=
  { argv := [], infile := none, outfile := none, out_append := 0, errfile := none }

/-- Assignment to one element of the array `cmds`: `cmds[i] = f (cmds[i])`. -/
def setStage (f : Command → Command) : List Command → Nat → List Command
  | [], _ => []
  | c :: cs, 0 => f c :: cs
  | c :: cs, n + 1 => c :: setStage f cs n

/-- The store `cmds[i].argv[arg_idx++] = t` (`arg_idx` is the number of
arguments stored since the `memset`). -/
def pushArg (t : String) (c : Command) : Command := { c with argv := c.argv ++ [t] }

/-- The store `cmds[i].infile = f`. -/
def withInfile (f : String) (c : Command) : Command := { c with infile := some f }

/-- The stores `cmds[i].outfile = f; cmds[i].out_append = a`. -/
def withOutfile (f : String) (a : Int) (c : Command) : Command :=
  { c with outfile := some f, out_append := a }

/-- The store `cmds[i].errfile = f`. -/
def withErrfile (f : String) (c : Command) : Command := { c with errfile := some f }

/-- The array `cmds` when `parse_pipeline` ends, the indices of `cmds` it has
stored to (in order), what it wrote to `stderr`, and the value it returned. -/
structure Parsed where
  cmds : List Command
  writes : List Nat
  eff : List Eff
  ret : Int
deriving DecidableEq, Repr

/-- The `for` loop of `parse_pipeline` from token `i` on, and the two
statements after it; arguments: the tokens not yet read, the array, `cmd_idx`,
`arg_idx` and the indices stored to so far. -/
def parseLoop (max_cmds : Int) :
    List String → List Command → Nat → Nat → List Nat → Parsed
  | [], cmds, cmd_idx, _, w => ⟨cmds, w ++ [cmd_idx], [], (cmd_idx : Int) + 1⟩
  | t :: ts, cmds, cmd_idx, arg_idx, w =>
    if t = "|" then
      if ((cmd_idx + 1 : Nat) : Int) ≥ max_cmds then
        ⟨cmds, w ++ [cmd_idx], [Eff.stderr "too many pipeline stages\n"], -1⟩
      else
        parseLoop max_cmds ts (setStage (fun _ => zeroCommand) cmds (cmd_idx + 1)) (cmd_idx + 1) 0
          (w ++ [cmd_idx, cmd_idx + 1])
    else if t = "<" then
      match ts with
      | [] => ⟨cmds, w, [Eff.stderr "syntax error: < without file\n"], -1⟩
      | f :: ts1 =>
        parseLoop max_cmds ts1 (setStage (withInfile f) cmds cmd_idx) cmd_idx arg_idx
          (w ++ [cmd_idx])
    else if t = ">" then
      match ts with
      | [] => ⟨cmds, w, [Eff.stderr "syntax error: > without file\n"], -1⟩
      | f :: ts1 =>
        parseLoop max_cmds ts1 (setStage (withOutfile f 0) cmds cmd_idx) cmd_idx arg_idx
          (w ++ [cmd_idx])
    else if t = ">>" then
      match ts with
      | [] => ⟨cmds, w, [Eff.stderr "syntax error: >> without file\n"], -1⟩
      | f :: ts1 =>
        parseLoop max_cmds ts1 (setStage (withOutfile f 1) cmds cmd_idx) cmd_idx arg_idx
          (w ++ [cmd_idx])
    else if t = "2>" then
      match ts with
      | [] => ⟨cmds, w, [Eff.stderr "syntax error: 2> without file\n"], -1⟩
      | f :: ts1 =>
        parseLoop max_cmds ts1 (setStage (withErrfile f) cmds cmd_idx) cmd_idx arg_idx
          (w ++ [cmd_idx])
    else if arg_idx ≥ MAX_ARGS - 1 then ⟨cmds, w, [Eff.stderr "too many args\n"], -1⟩
    else
      parseLoop max_cmds ts (setStage (pushArg t) cmds cmd_idx) cmd_idx (arg_idx + 1)
        (w ++ [cmd_idx])

/-- The function `parse_pipeline`; `tokens.length` is `ntokens`, `cmds` is the
array passed by the caller. -/
def parse_pipeline (tokens : List String) (cmds : List Command) (max_cmds : Int) : Parsed :=
  if tokens.length = 0 then ⟨cmds, [], [], 0⟩
  else parseLoop max_cmds tokens (setStage (fun _ => zeroCommand) cmds 0) 0 0 [0]

/-- The test for a trailing `&` in `main` (lines 611-617): the tokens without
it, and `background_flag`. -/
def stripAmp (tokens : List String) : List String × Int :=
  if tokens.getLast? = some "&" then (tokens.dropLast, 1) else (tokens, 0)

/-- The loop body of `main` from the tokens of one input line on (lines
607-636); `cmds0` is the content of the local array `cmds` before the call of
`parse_pipeline`.  `Outcome.returned 0` stands for the end of the iteration. -/
def mainBody (sh : Shell) (tokens : List String) (cmds0 : List Command) (line : String)
    (sys : Sys) : Run :=
  if tokens.length = 0 then ⟨sh, [], .returned 0⟩
  else
    let tokens1 := (stripAmp tokens).1
    let background_flag := (stripAmp tokens).2
    if tokens1.length = 0 then ⟨sh, [], .returned 0⟩
    else
      let p := parse_pipeline tokens1 cmds0 MAX_CMDS
      if p.ret < 0 then ⟨sh, p.eff ++ [Eff.stderr "parse error\n"], .returned 0⟩
      else if p.ret = 0 then ⟨sh, p.eff, .returned 0⟩
      else
        let r := dispatch sh (p.cmds.take p.ret.toNat) background_flag line sys
        ⟨r.sh, p.eff ++ r.eff, r.out⟩

/-- The number of pipeline stages a token list describes beyond the first:
the `|` tokens that are separators, that is, not the file name following a
redirection operator.  Written from the words of the specification. -/
def separators : List String → Nat
  | [] => 0
  | t :: ts =>
    if t = "|" then separators ts + 1
    else if t = "<" ∨ t = ">" ∨ t = ">>" ∨ t = "2>" then
      match ts with
      | [] => 0
      | _ :: ts1 => separators ts1
    else separators ts

/-- What holds of a run of the parser loop entered with `cmd_idx < max_cmds`:
every index stored to is below `max_cmds`; the result is -1 or the number of
stages, at most `max_cmds`; only `stderr` is written. -/
def ParseOk (max_cmds : Int) (ts : List String) (cmd_idx : Nat) (p : Parsed) : Prop :=
  (∀ x ∈ p.writes, (x : Int) < max_cmds) ∧
  (p.ret = -1 ∨ (p.ret = (cmd_idx : Int) + separators ts + 1 ∧ p.ret ≤ max_cmds)) ∧
  (∀ e ∈ p.eff, ∃ s, e = Eff.stderr s)

/-- The tokens of a pipeline of 65 stages `a | a | ... | a`. -/
def longPipeline : List String :=
  (List.range 64).foldr (fun _ acc => "a" :: "|" :: acc) ["a"]

/-- The array `cmds` of `main`, here with every element zero. -/
def zeroCmds : List Command := List.replicate MAX_CMDS zeroCommand

/-! # Properties

## Slot scans and slot assignment -/

theorem setSlot_length (f : Job → Job) (l : List Job) (i : Nat) :
    (setSlot f l i).length = l.length := by
  induction l generalizing i with
  | nil => rfl
  | cons j js ih => cases i <;> simp [setSlot, ih]

theorem setSlot_getElem? (f : Job → Job) (l : List Job) (i k : Nat) :
    (setSlot f l i)[k]? = if k = i then (l[k]?).map f else l[k]? := by
  induction l generalizing i k with
  | nil => simp [setSlot]
  | cons j js ih =>
    cases i with
    | zero => cases k <;> simp [setSlot]
    | succ i => cases k <;> simp [setSlot, ih]

theorem findSlot_some {p : Job → Bool} {l : List Job} {i : Nat} (h : findSlot p l = some i) :
    (∃ j, l[i]? = some j ∧ p j = true) ∧ ∀ k a, k < i → l[k]? = some a → p a = false := by
  induction l generalizing i with
  | nil => simp [findSlot] at h
  | cons j js ih =>
    unfold findSlot at h
    by_cases hp : p j = true
    · simp [hp] at h
      subst h
      exact ⟨⟨j, by simp, hp⟩, by intro k a hk; omega⟩
    · simp [hp] at h
      obtain ⟨i0, hi0, rfl⟩ := h
      obtain ⟨⟨a, ha, hpa⟩, hlt⟩ := ih hi0
      refine ⟨⟨a, by simpa using ha, hpa⟩, ?_⟩
      intro k b hk hb
      cases k with
      | zero => simp at hb; subst hb; simpa using hp
      | succ k => exact hlt k b (by omega) (by simpa using hb)

theorem findSlot_none {p : Job → Bool} {l : List Job} (h : findSlot p l = none) :
    ∀ (k : Nat) (a : Job), l[k]? = some a → p a = false := by
  induction l with
  | nil => intro k a hk; simp at hk
  | cons j js ih =>
    unfold findSlot at h
    by_cases hp : p j = true
    · simp [hp] at h
    · simp [hp] at h
      intro k a hk
      cases k with
      | zero => simp at hk; subst hk; simpa using hp
      | succ k => exact ih h k a (by simpa using hk)

theorem findSlot_isSome_of {p : Job → Bool} {l : List Job} {k : Nat} {a : Job}
    (hk : l[k]? = some a) (hp : p a = true) : ∃ i, findSlot p l = some i ∧ i ≤ k := by
  cases h : findSlot p l with
  | none => have := findSlot_none h k a hk; simp [hp] at this
  | some i =>
    refine ⟨i, rfl, ?_⟩
    by_contra hlt
    have := (findSlot_some h).2 k a (by omega) hk
    simp [hp] at this

/-! ## The job-table invariant -/

theorem wrap32_succ {x : Int} (h0 : 0 < x) (h : x < INT_MAX) : wrap32 (x + 1) = x + 1 := by
  unfold wrap32
  unfold INT_MAX at h
  omega

theorem tableInv_init (pid : Int) : TableInv (initShell pid) := by
  refine ⟨by simp [initShell], ?_, ?_⟩
  · intro i a h hne
    simp [initShell, List.getElem?_replicate] at h
    exact absurd (by rw [← h.2]; rfl) hne
  · intro i k a b ha hb _ hne
    simp [initShell, List.getElem?_replicate] at ha
    exact absurd (by rw [← ha.2]; rfl) hne

theorem tableInv_setSlot {sh : Shell} {f : Job → Job}
    (hf : ∀ j, (f j).jid = j.jid ∨ (f j).jid = 0) (i : Nat) (h : TableInv sh) :
    TableInv { sh with jobs := setSlot f sh.jobs i } := by
  obtain ⟨hpos, hlt, hd⟩ := h
  have key : ∀ (k : Nat) (a : Job), (setSlot f sh.jobs i)[k]? = some a → a.jid ≠ 0 →
      ∃ b, sh.jobs[k]? = some b ∧ b.jid = a.jid := by
    intro k a hk hne
    rw [setSlot_getElem?] at hk
    by_cases hki : k = i
    · simp only [hki, if_true, Option.map_eq_some'] at hk
      obtain ⟨b, hb, rfl⟩ := hk
      refine ⟨b, by rw [hki]; exact hb, ?_⟩
      rcases hf b with h1 | h1
      · exact h1.symm
      · exact absurd h1 hne
    · simp only [hki, if_false] at hk
      exact ⟨a, hk, rfl⟩
  refine ⟨hpos, ?_, ?_⟩
  · intro k a hk hne
    obtain ⟨b, hb, hjid⟩ := key k a hk hne
    rw [← hjid]
    exact hlt k b hb (by rw [hjid]; exact hne)
  · intro k m a b hk hm hkm hna hnb
    obtain ⟨a0, ha0, hja⟩ := key k a hk hna
    obtain ⟨b0, hb0, hjb⟩ := key m b hm hnb
    rw [← hja, ← hjb]
    exact hd k m a0 b0 ha0 hb0 hkm (by rw [hja]; exact hna) (by rw [hjb]; exact hnb)

theorem tableInv_job_add {sh : Shell} (pgid : Int) (cmdline : String) (bg : Int)
    (h : TableInv sh)
    (hov : ∀ i, findSlot (fun j => j.jid == 0) sh.jobs = some i → sh.next_jid < INT_MAX) :
    TableInv (job_add sh pgid cmdline bg).2 := by
  obtain ⟨hpos, hlt, hd⟩ := h
  unfold job_add
  cases hf : findSlot (fun j => j.jid == 0) sh.jobs with
  | none => exact ⟨hpos, hlt, hd⟩
  | some i =>
    simp only
    have hov := hov i hf
    rw [wrap32_succ hpos hov]
    have key : ∀ (k : Nat) (a : Job),
        (setSlot (fun _ => freshJob sh.next_jid pgid cmdline bg) sh.jobs i)[k]? = some a →
        (k = i ∧ a.jid = sh.next_jid) ∨ (k ≠ i ∧ sh.jobs[k]? = some a) := by
      intro k a hk
      rw [setSlot_getElem?] at hk
      by_cases hki : k = i
      · simp only [hki, if_true, Option.map_eq_some'] at hk
        obtain ⟨b, _, rfl⟩ := hk
        exact Or.inl ⟨hki, rfl⟩
      · simp only [hki, if_false] at hk
        exact Or.inr ⟨hki, hk⟩
    refine ⟨by show 0 < sh.next_jid + 1; omega, ?_, ?_⟩
    · intro k a hk hne
      rcases key k a hk with ⟨_, h1⟩ | ⟨_, h1⟩
      · simp only [h1]; omega
      · have := hlt k a h1 hne
        simp only; omega
    · intro k m a b hk hm hkm hna hnb
      rcases key k a hk with ⟨hk1, h1⟩ | ⟨hk1, h1⟩ <;>
        rcases key m b hm with ⟨hm1, h2⟩ | ⟨hm1, h2⟩
      · exact absurd (hk1.trans hm1.symm) hkm
      · have := hlt m b h2 hnb
        omega
      · have := hlt k a h1 hna
        omega
      · exact hd k m a b h1 h2 hkm hna hnb

theorem noOverflow_step {sh : Shell} {i : Nat}
    (h : (findSlot (fun j => j.jid == 0) sh.jobs).isNone = true ∨ sh.next_jid < INT_MAX)
    (hi : findSlot (fun j => j.jid == 0) sh.jobs = some i) : sh.next_jid < INT_MAX := by
  rcases h with h | h
  · rw [hi] at h; cases h
  · exact h

theorem tableInv_applyOp {sh : Shell} (op : TableOp) (h : TableInv sh)
    (hov : ∀ pgid cmdline bg, op = TableOp.add pgid cmdline bg →
      ∀ i, findSlot (fun j => j.jid == 0) sh.jobs = some i → sh.next_jid < INT_MAX) :
    TableInv (applyOp sh op) := by
  cases op with
  | add pgid cmdline bg => exact tableInv_job_add pgid cmdline bg h (hov pgid cmdline bg rfl)
  | remove jid =>
    simp only [applyOp, job_remove_jid]
    split
    · exact h
    · refine tableInv_setSlot ?_ _ h
      intro j
      exact Or.inr rfl
  | markDone pgid =>
    simp only [applyOp, job_mark_done]
    split
    · refine tableInv_setSlot ?_ _ h
      intro j
      exact Or.inl rfl
    · exact h
  | markStopped pgid =>
    simp only [applyOp, job_mark_stopped]
    split
    · refine tableInv_setSlot ?_ _ h
      intro j
      exact Or.inl rfl
    · exact h
  | markRunning pgid =>
    simp only [applyOp, job_mark_running]
    split
    · refine tableInv_setSlot ?_ _ h
      intro j
      exact Or.inl rfl
    · exact h

theorem tableInv_runOps {sh : Shell} (ops : List TableOp) (h : TableInv sh)
    (hov : noOverflow sh ops = true) : TableInv (runOps sh ops) := by
  induction ops generalizing sh with
  | nil => exact h
  | cons op ops ih =>
    cases op with
    | add pgid cmdline bg =>
      simp only [noOverflow, Bool.and_eq_true, Bool.or_eq_true, decide_eq_true_eq] at hov
      exact ih (tableInv_applyOp _ h (fun _ _ _ _ i hi => noOverflow_step hov.1 hi)) hov.2
    | remove jid => exact ih (tableInv_applyOp _ h (fun _ _ _ e => by cases e)) hov
    | markDone pgid => exact ih (tableInv_applyOp _ h (fun _ _ _ e => by cases e)) hov
    | markStopped pgid => exact ih (tableInv_applyOp _ h (fun _ _ _ e => by cases e)) hov
    | markRunning pgid => exact ih (tableInv_applyOp _ h (fun _ _ _ e => by cases e)) hov

/-- C1: in every table reached from the initial table by `job_add`,
`job_remove_jid`, `job_mark_done`, `job_mark_stopped` and `job_mark_running`
calls, none of which overflows `next_jid`, two different slots with non-zero
jids hold different jids. -/
theorem job_ids_pairwise_distinct (shell_pgid : Int) (ops : List TableOp)
    (hov : noOverflow (initShell shell_pgid) ops = true) :
    IdsDistinct (runOps (initShell shell_pgid) ops).jobs :=
  (tableInv_runOps ops (tableInv_init shell_pgid) hov).2.2

theorem job_ids_pairwise_distinct_witness :
    noOverflow (initShell 7)
        [.add 100 "sleep 1" 1, .add 101 "cat" 0, .markStopped 101, .remove 1, .add 102 "ls" 1,
          .markDone 100] = true ∧
      IdsDistinct (runOps (initShell 7)
        [.add 100 "sleep 1" 1, .add 101 "cat" 0, .markStopped 101, .remove 1, .add 102 "ls" 1,
          .markDone 100]).jobs :=
  ⟨by decide, job_ids_pairwise_distinct 7 _ (by decide)⟩

theorem findSlot_eq_none {p : Job → Bool} {l : List Job} (h : ∀ j ∈ l, p j = false) :
    findSlot p l = none := by
  induction l with
  | nil => rfl
  | cons j js ih =>
    have hj := h j (List.mem_cons_self _ _)
    simp only [findSlot, hj, Bool.false_eq_true, if_false, Option.map_eq_none']
    exact ih (fun x hx => h x (List.mem_cons_of_mem _ hx))

/-! ## C6: `job_add` on a full table and on a table with a free slot -/

/-- C6: when every slot holds an active job (`jid != 0`), `job_add` returns -1
and leaves the globals (every slot and `next_jid`) unchanged, whatever the
pgid, command line and background flag; when some slot is free (and `next_jid`
is positive, as it is from its initial value 1 on), `job_add` returns the
positive id `next_jid`, writes the new job into the lowest-index free slot `i`
and leaves every other slot unchanged. -/
theorem job_add_full_or_lowest_free (sh : Shell) (pgid : Int) (cmdline : String) (bg : Int) :
    ((∀ j ∈ sh.jobs, j.jid ≠ 0) → job_add sh pgid cmdline bg = (-1, sh)) ∧
    ((∃ j ∈ sh.jobs, j.jid = 0) → 0 < sh.next_jid →
      ∃ i : Nat,
        (∃ a, sh.jobs[i]? = some a ∧ a.jid = 0) ∧
        (∀ (k : Nat) (a : Job), k < i → sh.jobs[k]? = some a → a.jid ≠ 0) ∧
        (job_add sh pgid cmdline bg).1 = sh.next_jid ∧
        0 < (job_add sh pgid cmdline bg).1 ∧
        (job_add sh pgid cmdline bg).2.jobs[i]? = some (freshJob sh.next_jid pgid cmdline bg) ∧
        (∀ k : Nat, k ≠ i → (job_add sh pgid cmdline bg).2.jobs[k]? = sh.jobs[k]?) ∧
        (job_add sh pgid cmdline bg).2.jobs.length = sh.jobs.length) := by
  constructor
  · intro hfull
    have : findSlot (fun j => j.jid == 0) sh.jobs = none :=
      findSlot_eq_none (fun j hj => by simpa using hfull j hj)
    simp [job_add, this]
  · rintro ⟨j, hj, hj0⟩ hpos
    obtain ⟨k, hk⟩ := List.getElem?_of_mem hj
    obtain ⟨i, hi, _⟩ := findSlot_isSome_of (p := fun j => j.jid == 0) hk (by simpa using hj0)
    obtain ⟨⟨a, ha, hpa⟩, hlow⟩ := findSlot_some hi
    refine ⟨i, ⟨a, ha, by simpa using hpa⟩, ?_, ?_, ?_, ?_, ?_, ?_⟩
    · intro k b hk hb
      simpa using hlow k b hk hb
    · simp [job_add, hi]
    · simp [job_add, hi, hpos]
    · simp [job_add, hi, setSlot_getElem?, ha]
    · intro k hk
      simp [job_add, hi, setSlot_getElem?, hk]
    · simp [job_add, hi, setSlot_length]

set_option maxRecDepth 100000 in
theorem job_add_full_or_lowest_free_witness :
    ((∀ j ∈ fullShell.jobs, j.jid ≠ 0) ∧ job_add fullShell 4242 "ls" 1 = (-1, fullShell)) ∧
    ((∃ j ∈ (initShell 7).jobs, j.jid = 0) ∧ 0 < (initShell 7).next_jid ∧
      ∃ i : Nat,
        (∃ a, (initShell 7).jobs[i]? = some a ∧ a.jid = 0) ∧
        (∀ (k : Nat) (a : Job), k < i → (initShell 7).jobs[k]? = some a → a.jid ≠ 0) ∧
        (job_add (initShell 7) 4242 "ls" 1).1 = (initShell 7).next_jid ∧
        0 < (job_add (initShell 7) 4242 "ls" 1).1 ∧
        (job_add (initShell 7) 4242 "ls" 1).2.jobs[i]? =
          some (freshJob (initShell 7).next_jid 4242 "ls" 1) ∧
        (∀ k : Nat, k ≠ i →
          (job_add (initShell 7) 4242 "ls" 1).2.jobs[k]? = (initShell 7).jobs[k]?) ∧
        (job_add (initShell 7) 4242 "ls" 1).2.jobs.length = (initShell 7).jobs.length) :=
  ⟨⟨by decide, (job_add_full_or_lowest_free fullShell 4242 "ls" 1).1 (by decide)⟩,
    ⟨by decide, by decide,
      (job_add_full_or_lowest_free (initShell 7) 4242 "ls" 1).2 (by decide) (by decide)⟩⟩

/-! ## C10: ids of successive background launches -/

theorem handle_builtins_not_builtin (sh : Shell) (c : Command) (sys : Sys) {a0 : String}
    {rest : List String} (hc : c.argv = a0 :: rest) (hb : a0 ∉ builtinNames) :
    handle_builtins sh c sys = ⟨sh, [], .returned 0⟩ := by
  simp only [builtinNames, List.mem_cons, List.mem_singleton, List.not_mem_nil, or_false,
    not_or] at hb
  obtain ⟨h1, h2, h3, h4, h5, h6, h7⟩ := hb
  unfold handle_builtins
  simp only [hc, h1, h2, h3, h4, h5, h6, h7, if_false]

theorem makePipes_ok (sys : Sys) (n start : Nat)
    (h : ∀ i : Nat, i < n → 0 ≤ sys.pipeRet (start + i)) : (makePipes sys n start).2 = true := by
  induction n generalizing start with
  | zero => rfl
  | succ n ih =>
    have h0 : ¬ sys.pipeRet start < 0 := by
      have := h 0 (by omega)
      simpa using this
    simp only [makePipes, h0, if_false]
    apply ih
    intro i hi
    have := h (i + 1) (by omega)
    rwa [show start + 1 + i = start + (i + 1) by omega]

theorem forkStages_ok (sys : Sys) (num n start : Nat) (pgid : Int) (pids : List Int)
    (h : ∀ i : Nat, i < n → 0 < sys.forkRet (start + i)) :
    (forkStages sys num n start pgid pids).how = ForkEnd.allForked ∧
      (forkStages sys num n start pgid pids).pgid =
        (if start = 0 ∧ 0 < n then sys.forkRet 0 else pgid) := by
  induction n generalizing start pgid pids with
  | zero => simp [forkStages]
  | succ n ih =>
    have h0 := h 0 (by omega)
    simp only [Nat.add_zero] at h0
    have h1 : ¬ sys.forkRet start < 0 := by omega
    have h2 : ¬ sys.forkRet start = 0 := by omega
    have hrest : ∀ i : Nat, i < n → 0 < sys.forkRet (start + 1 + i) := by
      intro i hi
      have := h (i + 1) (by omega)
      rwa [show start + 1 + i = start + (i + 1) by omega]
    obtain ⟨ih1, ih2⟩ := ih (start + 1) (if start = 0 then sys.forkRet start else pgid)
      (pids ++ [sys.forkRet start]) hrest
    simp only [forkStages, h1, h2, if_false]
    refine ⟨ih1, ?_⟩
    rw [ih2]
    by_cases hs : start = 0
    · subst hs; simp
    · simp [hs]

theorem job_add_lookup (sh : Shell) (pgid : Int) (cmdline : String) (bg : Int)
    (hfree : ∃ j ∈ sh.jobs, j.jid = 0) :
    ∃ job, deref (job_add sh pgid cmdline bg).2
        (job_by_jid (job_add sh pgid cmdline bg).2 (job_add sh pgid cmdline bg).1) = some job ∧
      job.jid = (job_add sh pgid cmdline bg).1 := by
  obtain ⟨j, hj, hj0⟩ := hfree
  obtain ⟨k, hk⟩ := List.getElem?_of_mem hj
  obtain ⟨i, hi, _⟩ := findSlot_isSome_of (p := fun j => j.jid == 0) hk (by simpa using hj0)
  obtain ⟨⟨a, ha, _⟩, _⟩ := findSlot_some hi
  have hnew : (job_add sh pgid cmdline bg).2.jobs[i]? = some (freshJob sh.next_jid pgid cmdline bg) := by
    simp [job_add, hi, setSlot_getElem?, ha]
  have hret : (job_add sh pgid cmdline bg).1 = sh.next_jid := by simp [job_add, hi]
  obtain ⟨m, hm, _⟩ := findSlot_isSome_of (p := fun j => j.jid == sh.next_jid) hnew
    (by simp [freshJob])
  obtain ⟨⟨job, hjob, hpjob⟩, _⟩ := findSlot_some hm
  refine ⟨job, ?_, ?_⟩
  · rw [hret]
    simp only [job_by_jid, hm, deref]
    exact hjob
  · rw [hret]
    simpa using hpjob

theorem dispatch_background (sh : Shell) (cmds : List Command) (line : String) (sys : Sys)
    (hok : launchOk cmds sys) (hfree : ∃ j ∈ sh.jobs, j.jid = 0) :
    (dispatch sh cmds 1 line sys).sh = (job_add sh (sys.forkRet 0) (launchText cmds line) 1).2 ∧
      (dispatch sh cmds 1 line sys).out = Outcome.returned 0 ∧
      ∃ (job : Job) (pre : List Eff),
        job.jid = (job_add sh (sys.forkRet 0) (launchText cmds line) 1).1 ∧
        (dispatch sh cmds 1 line sys).eff =
          pre ++ [Eff.stdout ("[" ++ toString job.jid ++ "] " ++ toString (sys.forkRet 0) ++ "\n")] := by
  match cmds, hok with
  | [], hok => simp [launchOk] at hok
  | [c], hok =>
    obtain ⟨⟨a0, rest, hc, hb⟩, hfork⟩ := hok
    obtain ⟨job, hjob, hjid⟩ := job_add_lookup sh (sys.forkRet 0) (buildCmdline a0 rest) 1 hfree
    have h1 : ¬ sys.forkRet 0 < 0 := by omega
    have h2 : ¬ sys.forkRet 0 = 0 := by omega
    simp only [dispatch, handle_builtins_not_builtin sh c sys hc hb, execute_single, hc,
      launchText, lnot]
    simp only [h1, h2, hjob, if_false, if_true, List.nil_append, ne_eq, not_true_eq_false,
      one_ne_zero, not_false_eq_true, true_and]
    exact ⟨job, _, hjid, rfl⟩
  | c1 :: c2 :: cs, hok =>
    obtain ⟨_, hpipe, hfork⟩ := hok
    have hp := makePipes_ok sys ((c1 :: c2 :: cs).length - 1) 0
      (fun i hi => by
        have := hpipe i (by simp only [List.length_cons] at hi ⊢; omega)
        simpa using this)
    obtain ⟨hf1, hf2⟩ := forkStages_ok sys (c1 :: c2 :: cs).length (c1 :: c2 :: cs).length 0 0 []
      (fun i hi => by simpa using hfork i hi)
    have hpg : (forkStages sys (c1 :: c2 :: cs).length (c1 :: c2 :: cs).length 0 0 []).pgid =
        sys.forkRet 0 := by
      rw [hf2]; simp
    obtain ⟨job, hjob, hjid⟩ := job_add_lookup sh (sys.forkRet 0) line 1 hfree
    simp only [dispatch, execute_pipeline, hp, hf1, hpg, launchText]
    simp only [hjob, if_false, if_true, ne_eq, not_true_eq_false,
      one_ne_zero, not_false_eq_true, true_and, Bool.true_eq_false]
    exact ⟨job, _, hjid, rfl⟩

theorem addResults_ge {sh : Shell} (ops : List TableOp) (hpos : 0 < sh.next_jid)
    (hov : noOverflow sh ops = true) : ∀ r ∈ addResults sh ops, sh.next_jid ≤ r := by
  induction ops generalizing sh with
  | nil => intro r hr; simp [addResults] at hr
  | cons op ops ih =>
    have hstep : ∀ sh1 : Shell, sh1.next_jid = sh.next_jid → noOverflow sh1 ops = true →
        ∀ r ∈ addResults sh1 ops, sh.next_jid ≤ r := by
      intro sh1 h1 h2 r hr
      have := @ih sh1 (by omega) h2 r hr
      omega
    cases op with
    | add pgid cmdline bg =>
      simp only [noOverflow, Bool.and_eq_true, Bool.or_eq_true, decide_eq_true_eq] at hov
      intro r hr
      simp only [addResults] at hr
      cases hf : findSlot (fun j => j.jid == 0) sh.jobs with
      | none =>
        have e : job_add sh pgid cmdline bg = (-1, sh) := by simp [job_add, hf]
        rw [e] at hr hov
        simp only [if_true] at hr
        exact hstep sh rfl hov.2 r hr
      | some i =>
        have e1 : (job_add sh pgid cmdline bg).1 = sh.next_jid := by simp [job_add, hf]
        have e2 : (job_add sh pgid cmdline bg).2.next_jid = sh.next_jid + 1 := by
          simp [job_add, hf, wrap32_succ hpos (noOverflow_step hov.1 hf)]
        have hne : ¬ (job_add sh pgid cmdline bg).1 = -1 := by rw [e1]; omega
        simp only [hne, if_false, List.mem_cons] at hr
        rcases hr with hr | hr
        · omega
        · have := @ih (job_add sh pgid cmdline bg).2 (by omega) hov.2 r hr
          omega
    | remove jid =>
      refine hstep _ ?_ hov
      simp only [applyOp, job_remove_jid]; split <;> rfl
    | markDone pgid =>
      refine hstep _ ?_ hov
      simp only [applyOp, job_mark_done]; split <;> rfl
    | markStopped pgid =>
      refine hstep _ ?_ hov
      simp only [applyOp, job_mark_stopped]; split <;> rfl
    | markRunning pgid =>
      refine hstep _ ?_ hov
      simp only [applyOp, job_mark_running]; split <;> rfl

theorem addResults_increasing {sh : Shell} (ops : List TableOp) (hpos : 0 < sh.next_jid)
    (hov : noOverflow sh ops = true) : List.Pairwise (· < ·) (addResults sh ops) := by
  induction ops generalizing sh with
  | nil => simp [addResults]
  | cons op ops ih =>
    have hstep : ∀ sh1 : Shell, sh1.next_jid = sh.next_jid → noOverflow sh1 ops = true →
        List.Pairwise (· < ·) (addResults sh1 ops) :=
      fun sh1 h1 h2 => @ih sh1 (by omega) h2
    cases op with
    | add pgid cmdline bg =>
      simp only [noOverflow, Bool.and_eq_true, Bool.or_eq_true, decide_eq_true_eq] at hov
      simp only [addResults]
      cases hf : findSlot (fun j => j.jid == 0) sh.jobs with
      | none =>
        have e : job_add sh pgid cmdline bg = (-1, sh) := by simp [job_add, hf]
        rw [e] at hov ⊢
        simp only [if_true]
        exact hstep sh rfl hov.2
      | some i =>
        have e1 : (job_add sh pgid cmdline bg).1 = sh.next_jid := by simp [job_add, hf]
        have e2 : (job_add sh pgid cmdline bg).2.next_jid = sh.next_jid + 1 := by
          simp [job_add, hf, wrap32_succ hpos (noOverflow_step hov.1 hf)]
        have hne : ¬ (job_add sh pgid cmdline bg).1 = -1 := by rw [e1]; omega
        simp only [hne, if_false, List.pairwise_cons]
        refine ⟨?_, @ih (job_add sh pgid cmdline bg).2 (by omega) hov.2⟩
        intro r hr
        have := @addResults_ge (job_add sh pgid cmdline bg).2 ops (by omega) hov.2 r hr
        omega
    | remove jid =>
      refine hstep _ ?_ hov
      simp only [applyOp, job_remove_jid]; split <;> rfl
    | markDone pgid =>
      refine hstep _ ?_ hov
      simp only [applyOp, job_mark_done]; split <;> rfl
    | markStopped pgid =>
      refine hstep _ ?_ hov
      simp only [applyOp, job_mark_stopped]; split <;> rfl
    | markRunning pgid =>
      refine hstep _ ?_ hov
      simp only [applyOp, job_mark_running]; split <;> rfl

theorem two_adds_on_empty (sh : Shell) (pg1 pg2 : Int) (t1 t2 : String) (b1 b2 : Int)
    (hlen : sh.jobs.length = MAX_JOBS) (hempty : ∀ j ∈ sh.jobs, j.jid = 0)
    (hpos : 0 < sh.next_jid) (hov : sh.next_jid < INT_MAX) :
    (∃ j ∈ sh.jobs, j.jid = 0) ∧ (∃ j ∈ (job_add sh pg1 t1 b1).2.jobs, j.jid = 0) ∧
    (job_add sh pg1 t1 b1).1 = sh.next_jid ∧
    (job_add (job_add sh pg1 t1 b1).2 pg2 t2 b2).1 = sh.next_jid + 1 ∧
    jobsListing (job_add (job_add sh pg1 t1 b1).2 pg2 t2 b2).2 =
      [Eff.stdout (jobLine (freshJob sh.next_jid pg1 t1 b1)),
        Eff.stdout (jobLine (freshJob (sh.next_jid + 1) pg2 t2 b2))] := by
  obtain ⟨jobs, n, sp, fl⟩ := sh
  simp only at hlen hempty hpos hov ⊢
  match jobs, hlen, hempty with
  | a :: b :: rest, _, hempty =>
    have ha : a.jid = 0 := hempty a (by simp)
    have hb : b.jid = 0 := hempty b (by simp)
    have hrest : ∀ j ∈ rest, j.jid = 0 := fun j hj => hempty j (by simp [hj])
    have hn : n ≠ 0 := by omega
    have hw := wrap32_succ hpos hov
    have hn1 : (n + 1 != 0) = true := by
      simp only [bne_iff_ne, ne_eq]; omega
    have hfilter : List.filter (fun j => j.jid != 0) rest = [] := by
      rw [List.filter_eq_nil_iff]
      intro j hj
      simp [hrest j hj]
    refine ⟨⟨a, by simp, ha⟩, ?_, ?_, ?_, ?_⟩
    · simp only [job_add, findSlot, ha, beq_self_eq_true, if_true, setSlot]
      exact ⟨b, by simp, hb⟩
    · simp [job_add, findSlot, ha]
    · simp [job_add, findSlot, ha, hb, setSlot, freshJob, hn, hw]
    · simp [job_add, findSlot, ha, hb, setSlot, freshJob, hn, hw, jobsListing, List.filter, hfilter,
        hn1]

/-- C10: from a table with no active job whose `next_jid` is in its range
(positive, below `INT_MAX`), two launches in background mode, each a single
command or a pipeline, both return; the first prints the id `next_jid`, the
second the id `next_jid + 1`; the `jobs` built-in then prints exactly two
lines, the first launch before the second, with these two ids.  More generally,
in any run of job-table calls without overflow of `next_jid`, the ids returned
by the successful `job_add` calls are strictly increasing. -/
theorem background_launch_ids_increase :
    (∀ (sh : Shell) (cmds1 cmds2 : List Command) (line1 line2 : String) (sys1 sys2 sys3 : Sys),
      sh.jobs.length = MAX_JOBS → (∀ j ∈ sh.jobs, j.jid = 0) →
      0 < sh.next_jid → sh.next_jid < INT_MAX →
      launchOk cmds1 sys1 → launchOk cmds2 sys2 →
      (dispatch sh cmds1 1 line1 sys1).out = Outcome.returned 0 ∧
      (dispatch (dispatch sh cmds1 1 line1 sys1).sh cmds2 1 line2 sys2).out = Outcome.returned 0 ∧
      (∃ pre : List Eff, (dispatch sh cmds1 1 line1 sys1).eff = pre ++
        [Eff.stdout ("[" ++ toString sh.next_jid ++ "] " ++ toString (sys1.forkRet 0) ++ "\n")]) ∧
      (∃ pre : List Eff,
        (dispatch (dispatch sh cmds1 1 line1 sys1).sh cmds2 1 line2 sys2).eff = pre ++
        [Eff.stdout ("[" ++ toString (sh.next_jid + 1) ++ "] " ++ toString (sys2.forkRet 0)
          ++ "\n")]) ∧
      sh.next_jid < sh.next_jid + 1 ∧
      (handle_builtins (dispatch (dispatch sh cmds1 1 line1 sys1).sh cmds2 1 line2 sys2).sh
          jobsCmd sys3).eff =
        [Eff.stdout (jobLine
            (freshJob sh.next_jid (sys1.forkRet 0) (launchText cmds1 line1) 1)),
          Eff.stdout (jobLine
            (freshJob (sh.next_jid + 1) (sys2.forkRet 0) (launchText cmds2 line2) 1))]) ∧
    (∀ (sh : Shell) (ops : List TableOp), 0 < sh.next_jid → noOverflow sh ops = true →
      List.Pairwise (· < ·) (addResults sh ops)) := by
  refine ⟨?_, fun sh ops hpos hov => addResults_increasing ops hpos hov⟩
  intro sh cmds1 cmds2 line1 line2 sys1 sys2 sys3 hlen hempty hpos hov h1 h2
  obtain ⟨hf1, hf2, e1, e2, hlist⟩ := two_adds_on_empty sh (sys1.forkRet 0) (sys2.forkRet 0)
    (launchText cmds1 line1) (launchText cmds2 line2) 1 1 hlen hempty hpos hov
  obtain ⟨d1, o1, job1, pre1, hj1, he1⟩ := dispatch_background sh cmds1 line1 sys1 h1 hf1
  rw [d1]
  obtain ⟨d2, o2, job2, pre2, hj2, he2⟩ := dispatch_background
    (job_add sh (sys1.forkRet 0) (launchText cmds1 line1) 1).2 cmds2 line2 sys2 h2 hf2
  rw [d2]
  rw [hj1, e1] at he1
  rw [hj2, e2] at he2
  refine ⟨o1, o2, ⟨pre1, he1⟩, ⟨pre2, he2⟩, by omega, ?_⟩
  rw [← hlist]
  simp [handle_builtins, jobsCmd, plainCmd]

set_option maxRecDepth 100000 in
theorem background_launch_ids_increase_witness :
    ((initShell 7).jobs.length = MAX_JOBS ∧ (∀ j ∈ (initShell 7).jobs, j.jid = 0) ∧
      0 < (initShell 7).next_jid ∧ (initShell 7).next_jid < INT_MAX ∧
      launchOk [plainCmd ["sleep", "100"]] (sysOk 100 []) ∧
      launchOk [plainCmd ["cat", "f"], plainCmd ["wc"]] (sysOk 200 []) ∧
      (handle_builtins
          (dispatch (dispatch (initShell 7) [plainCmd ["sleep", "100"]] 1 "sleep 100" (sysOk 100 [])).sh
            [plainCmd ["cat", "f"], plainCmd ["wc"]] 1 "cat f | wc" (sysOk 200 [])).sh
          jobsCmd (sysOk 0 [])).eff =
        [Eff.stdout (jobLine (freshJob (initShell 7).next_jid ((sysOk 100 []).forkRet 0)
            (launchText [plainCmd ["sleep", "100"]] "sleep 100") 1)),
          Eff.stdout (jobLine (freshJob ((initShell 7).next_jid + 1) ((sysOk 200 []).forkRet 0)
            (launchText [plainCmd ["cat", "f"], plainCmd ["wc"]] "cat f | wc") 1))]) ∧
    (0 < (initShell 7).next_jid ∧
      noOverflow (initShell 7) [.add 100 "a" 1, .remove 1, .add 101 "b" 1, .add 102 "c" 0] = true ∧
      List.Pairwise (· < ·)
        (addResults (initShell 7) [.add 100 "a" 1, .remove 1, .add 101 "b" 1, .add 102 "c" 0])) :=
  have hA : launchOk [plainCmd ["sleep", "100"]] (sysOk 100 []) :=
    ⟨⟨"sleep", ["100"], rfl, by decide⟩, by decide⟩
  have hB : launchOk [plainCmd ["cat", "f"], plainCmd ["wc"]] (sysOk 200 []) :=
    ⟨by decide, fun _ _ => by simp [sysOk], fun i _ => by simp only [sysOk]; omega⟩
  ⟨⟨by decide, by decide, by decide, by decide, hA, hB,
      (background_launch_ids_increase.1 (initShell 7) _ _ "sleep 100" "cat f | wc" (sysOk 100 [])
        (sysOk 200 []) (sysOk 0 []) (by decide) (by decide) (by decide) (by decide)
        hA hB).2.2.2.2.2⟩,
    ⟨by decide, by decide,
      background_launch_ids_increase.2 (initShell 7) _ (by decide) (by decide)⟩⟩

set_option maxRecDepth 100000 in
/-- The listing printed by `jobs` after `sleep 100 &` and `cat f | wc &` on the
initial table. -/
theorem jobs_after_two_background_launches :
    (handle_builtins
          (dispatch (dispatch (initShell 7) [plainCmd ["sleep", "100"]] 1 "sleep 100" (sysOk 100 [])).sh
            [plainCmd ["cat", "f"], plainCmd ["wc"]] 1 "cat f | wc" (sysOk 200 [])).sh
          jobsCmd (sysOk 0 [])).eff = [Eff.stdout "[1] 100 Running\tsleep 100\n", Eff.stdout "[2] 200 Running\tcat f | wc\n"] := by decide

/-! ## C7: `bg %N` on a stopped job -/

theorem digitChar_props {d : Nat} (h : d < 10) :
    (Nat.digitChar d).isDigit = true ∧ (Nat.digitChar d).toNat - 48 = d ∧
      isspaceC (Nat.digitChar d) = false ∧ Nat.digitChar d ≠ '-' ∧ Nat.digitChar d ≠ '+' := by
  interval_cases d <;> decide

theorem digitsVal_append (pre ds : List Char) (acc : Nat) (h : ∀ c ∈ pre, c.isDigit = true) :
    digitsVal acc (pre ++ ds) =
      digitsVal (pre.foldl (fun a c => a * 10 + (c.toNat - 48)) acc) ds := by
  induction pre generalizing acc with
  | nil => rfl
  | cons c cs ih =>
    have hc := h c (List.mem_cons_self _ _)
    simp only [List.cons_append, digitsVal, hc, if_true, List.foldl_cons]
    exact ih _ (fun x hx => h x (List.mem_cons_of_mem _ hx))

theorem toDigitsCore_spec (fuel n : Nat) (ds : List Char) (h : n < fuel) :
    ∃ pre, Nat.toDigitsCore 10 fuel n ds = pre ++ ds ∧ pre ≠ [] ∧
      (∀ c ∈ pre, c.isDigit = true) ∧
      (∀ c, pre.head? = some c → isspaceC c = false ∧ c ≠ '-' ∧ c ≠ '+') ∧
      ∀ acc, pre.foldl (fun a c => a * 10 + (c.toNat - 48)) acc = acc * 10 ^ pre.length + n := by
  induction fuel generalizing n ds with
  | zero => omega
  | succ fuel ih =>
    have hd := digitChar_props (Nat.mod_lt n (by decide : 10 > 0))
    unfold Nat.toDigitsCore
    by_cases h0 : n / 10 = 0
    · simp only [h0, if_true]
      have hn : n % 10 = n := by omega
      refine ⟨[Nat.digitChar (n % 10)], rfl, by simp, ?_, ?_, ?_⟩
      · intro c hc
        simp only [List.mem_singleton] at hc
        rw [hc]; exact hd.1
      · intro c hc
        simp only [List.head?_cons, Option.some.injEq] at hc
        rw [← hc]; exact ⟨hd.2.2.1, hd.2.2.2.1, hd.2.2.2.2⟩
      · intro acc
        simp only [List.foldl_cons, List.foldl_nil, List.length_singleton, pow_one, hd.2.1]
        omega
    · simp only [h0, if_false]
      obtain ⟨pre, hpre, hne, hdig, hhead, hval⟩ :=
        ih (n / 10) (Nat.digitChar (n % 10) :: ds) (by omega)
      refine ⟨pre ++ [Nat.digitChar (n % 10)], by rw [hpre]; simp, by simp, ?_, ?_, ?_⟩
      · intro c hc
        rcases List.mem_append.1 hc with hc | hc
        · exact hdig c hc
        · simp only [List.mem_singleton] at hc
          rw [hc]; exact hd.1
      · intro c hc
        cases pre with
        | nil => exact absurd rfl hne
        | cons p ps => exact hhead c (by simpa using hc)
      · intro acc
        rw [List.foldl_append, hval]
        simp only [List.foldl_cons, List.foldl_nil, List.length_append, List.length_singleton,
          hd.2.1, pow_succ]
        nlinarith [Nat.div_add_mod n 10]

/-- The decimal text of a natural number: digits only, not starting with a
blank or a sign, and read back by `digitsVal`. -/
theorem toString_nat_digits (n : Nat) :
    ∃ c cs, (toString n).data = c :: cs ∧ isspaceC c = false ∧ c ≠ '-' ∧ c ≠ '+' ∧
      digitsVal 0 (c :: cs) = n := by
  obtain ⟨pre, hpre, hne, hdig, hhead, hval⟩ := toDigitsCore_spec (n + 1) n [] (by omega)
  have hs : (toString n).data = pre := by
    show (Nat.repr n).data = pre
    simp only [Nat.repr, Nat.toDigits, List.asString, hpre, List.append_nil]
  cases pre with
  | nil => exact absurd rfl hne
  | cons c cs =>
    obtain ⟨hsp, hm, hp⟩ := hhead c rfl
    refine ⟨c, cs, hs, hsp, hm, hp, ?_⟩
    have := digitsVal_append (c :: cs) [] 0 hdig
    rw [List.append_nil, hval 0] at this
    rw [this]
    simp [digitsVal]

/-- The function `atoi` reads back the decimal text `printf("%d")` writes. -/
theorem atoi_toString (n : Int) : atoi (toString n).data = n := by
  cases n with
  | ofNat m =>
    obtain ⟨c, cs, hs, hsp, hm, hp, hv⟩ := toString_nat_digits m
    show atoi (toString m).data = (m : Int)
    rw [hs]
    unfold atoi
    simp only [List.dropWhile, hsp]
    split
    · rename_i heq; simp only [List.cons.injEq] at heq; exact absurd heq.1 hm
    · rename_i heq; simp only [List.cons.injEq] at heq; exact absurd heq.1 hp
    · rw [hv]
  | negSucc m =>
    obtain ⟨c, cs, hs, hsp, hm, hp, hv⟩ := toString_nat_digits (m + 1)
    have e : (toString (Int.negSucc m)).data = '-' :: (toString (m + 1)).data := by
      show ("-" ++ toString (m + 1)).data = _
      simp [String.data_append]
    rw [e, hs]
    unfold atoi
    have hsp2 : isspaceC '-' = false := by decide
    simp only [List.dropWhile, hsp2]
    rw [hv]
    rfl

theorem job_by_jid_of_distinct {sh : Shell} {i : Nat} {j : Job} (hd : IdsDistinct sh.jobs)
    (hi : sh.jobs[i]? = some j) (hact : j.jid ≠ 0) : job_by_jid sh j.jid = some i := by
  obtain ⟨k, hk, _⟩ := findSlot_isSome_of (p := fun a => a.jid == j.jid) hi (by simp)
  obtain ⟨⟨a, ha, hpa⟩, _⟩ := findSlot_some hk
  have haj : a.jid = j.jid := by simpa using hpa
  by_cases hki : k = i
  · rw [← hki]; exact hk
  · exact absurd haj (hd k i a j ha hi hki (by rw [haj]; exact hact) hact)

/-- C7: for an active job `j` in slot `i` of a table with distinct ids, whatever
its status (in particular Stopped), the built-in `bg %<jid>` returns 1, sends
`SIGCONT` to the job's process group, sets the slot's status to Running and its
`is_background` to 1, and leaves `jid`, `pgid`, `cmdline`, every other slot and
`next_jid` unchanged; the `jobs` built-in then prints the line of that job with
the label `Running`, and every slot holding that id has status Running. -/
theorem bg_resumes_stopped_job (sh : Shell) (c : Command) (sys sys2 : Sys) (i : Nat) (j : Job)
    (more : List String) (hd : IdsDistinct sh.jobs) (hi : sh.jobs[i]? = some j)
    (hact : j.jid ≠ 0)
    (hc : c.argv = "bg" :: ("%" ++ toString j.jid) :: more) :
    (handle_builtins sh c sys).out = Outcome.returned 1 ∧
    (handle_builtins sh c sys).sh.jobs[i]? =
      some { j with status := JOB_RUNNING, is_background := 1 } ∧
    (∀ k : Nat, k ≠ i → (handle_builtins sh c sys).sh.jobs[k]? = sh.jobs[k]?) ∧
    (handle_builtins sh c sys).sh.jobs.length = sh.jobs.length ∧
    (handle_builtins sh c sys).sh.next_jid = sh.next_jid ∧
    Eff.kill (-j.pgid) SIGCONT ∈ (handle_builtins sh c sys).eff ∧
    (handle_builtins (handle_builtins sh c sys).sh jobsCmd sys2).eff =
      ((handle_builtins sh c sys).sh.jobs.filter (fun a => a.jid != 0)).map
        (fun a => Eff.stdout (jobLine a)) ∧
    Eff.stdout ("[" ++ toString j.jid ++ "] " ++ toString j.pgid ++ " " ++ "Running" ++ "\t"
        ++ j.cmdline ++ "\n") ∈ (handle_builtins (handle_builtins sh c sys).sh jobsCmd sys2).eff ∧
    (∀ (k : Nat) (a : Job), (handle_builtins sh c sys).sh.jobs[k]? = some a → a.jid = j.jid →
      a.status = JOB_RUNNING) := by
  have hdata : ("%" ++ toString j.jid).data = '%' :: (toString j.jid).data := by
    simp [String.data_append]
  have hfind : findSlot (fun a => a.jid == j.jid) sh.jobs = some i :=
    job_by_jid_of_distinct hd hi hact
  have hrun : handle_builtins sh c sys =
      ⟨{ sh with jobs := setSlot (withStatusBg JOB_RUNNING 1) sh.jobs i },
        sendCont j.pgid sys ++
          [Eff.stdout ("[" ++ toString j.jid ++ "]+ " ++ j.cmdline ++ " &\n")],
        Outcome.returned 1⟩ := by
    unfold handle_builtins
    simp only [hc, builtin_bg, hdata, atoi_toString, job_by_jid, hfind, hi]
    simp
  have hslot : (handle_builtins sh c sys).sh.jobs[i]? =
      some { j with status := JOB_RUNNING, is_background := 1 } := by
    rw [hrun]; simp [setSlot_getElem?, hi, withStatusBg]
  have hother : ∀ k : Nat, k ≠ i → (handle_builtins sh c sys).sh.jobs[k]? = sh.jobs[k]? := by
    intro k hk
    rw [hrun]; simp [setSlot_getElem?, hk]
  have hlist : (handle_builtins (handle_builtins sh c sys).sh jobsCmd sys2).eff =
      ((handle_builtins sh c sys).sh.jobs.filter (fun a => a.jid != 0)).map
        (fun a => Eff.stdout (jobLine a)) := by
    simp [handle_builtins, jobsCmd, plainCmd, jobsListing]
  refine ⟨by rw [hrun], hslot, hother, by rw [hrun]; simp [setSlot_length], by rw [hrun],
    by rw [hrun]; simp [sendCont], hlist, ?_, ?_⟩
  · rw [hlist]
    refine List.mem_map.2 ⟨{ j with status := JOB_RUNNING, is_background := 1 }, ?_, ?_⟩
    · rw [List.mem_filter]
      exact ⟨List.getElem?_mem hslot, by simpa using hact⟩
    · simp [jobLine, statusLabel]
  · intro k a hk ha
    by_cases hki : k = i
    · rw [hki, hslot] at hk
      cases hk
      rfl
    · rw [hother k hki] at hk
      exact absurd ha (hd k i a j hk hi hki (by rw [ha]; exact hact) hact)

set_option maxRecDepth 100000 in
theorem bg_resumes_stopped_job_witness :
    IdsDistinct stoppedShell.jobs ∧ stoppedShell.jobs[0]? = some vimJob ∧ vimJob.jid ≠ 0 ∧
    vimJob.status = JOB_STOPPED ∧
    (plainCmd ["bg", "%1"]).argv = "bg" :: ("%" ++ toString vimJob.jid) :: [] ∧
    (handle_builtins stoppedShell (plainCmd ["bg", "%1"]) (sysOk 0 [])).sh.jobs[0]? =
      some { vimJob with status := JOB_RUNNING, is_background := 1 } ∧
    Eff.stdout ("[" ++ toString vimJob.jid ++ "] " ++ toString vimJob.pgid ++ " " ++ "Running"
        ++ "\t" ++ vimJob.cmdline ++ "\n") ∈
      (handle_builtins (handle_builtins stoppedShell (plainCmd ["bg", "%1"]) (sysOk 0 [])).sh
        jobsCmd (sysOk 0 [])).eff :=
  have hd : IdsDistinct stoppedShell.jobs :=
    (tableInv_runOps _ (tableInv_init 7) (by decide)).2.2
  have h := bg_resumes_stopped_job stoppedShell (plainCmd ["bg", "%1"]) (sysOk 0 []) (sysOk 0 [])
    0 vimJob [] hd (by decide) (by decide) (by decide)
  ⟨hd, by decide, by decide, rfl, by decide, h.2.1, h.2.2.2.2.2.2.2.1⟩

set_option maxRecDepth 100000 in
/-- The run of `bg %1` on `stoppedShell` followed by `jobs`. -/
theorem bg_then_jobs_on_stoppedShell :
    (handle_builtins stoppedShell (plainCmd ["bg", "%1"]) (sysOk 0 [])).eff =
      [Eff.kill (-100) 18, Eff.stdout "[1]+ vim &\n"] ∧
    (handle_builtins (handle_builtins stoppedShell (plainCmd ["bg", "%1"]) (sysOk 0 [])).sh
        jobsCmd (sysOk 0 [])).eff =
      [Eff.stdout "[1] 100 Running\tvim\n", Eff.stdout "[2] 101 Running\tsleep 100\n"] := by
  decide

/-! ## C9: the terminal returns to the shell after a foreground wait -/

theorem lastTcsetpgrp_append (xs ys : List Eff) :
    lastTcsetpgrp (xs ++ ys) = (lastTcsetpgrp ys).or (lastTcsetpgrp xs) := by
  induction xs with
  | nil => simp [lastTcsetpgrp]
  | cons e es ih => simp [lastTcsetpgrp, ih, Option.or_assoc]

theorem enteredWait_append (xs ys : List Eff) :
    enteredWait (xs ++ ys) = (enteredWait xs || enteredWait ys) := by
  simp [enteredWait, List.any_append]

theorem job_add_shell_pgid (sh : Shell) (pgid : Int) (cmdline : String) (bg : Int) :
    (job_add sh pgid cmdline bg).2.shell_pgid = sh.shell_pgid := by
  unfold job_add; split <;> rfl

theorem job_remove_jid_shell_pgid (sh : Shell) (jid : Int) :
    (job_remove_jid sh jid).shell_pgid = sh.shell_pgid := by
  unfold job_remove_jid; split <;> rfl

theorem job_mark_done_shell_pgid (sh : Shell) (pgid : Int) :
    (job_mark_done sh pgid).shell_pgid = sh.shell_pgid := by
  unfold job_mark_done; split <;> rfl

theorem job_mark_stopped_shell_pgid (sh : Shell) (pgid : Int) :
    (job_mark_stopped sh pgid).shell_pgid = sh.shell_pgid := by
  unfold job_mark_stopped; split <;> rfl

theorem fgWaitLoop_shell_pgid (sh : Shell) (j : Nat) (ws : List WaitRes) :
    (fgWaitLoop sh j ws).sh.shell_pgid = sh.shell_pgid := by
  induction ws with
  | nil => unfold fgWaitLoop; split <;> rfl
  | cons r rs ih =>
    unfold fgWaitLoop
    repeat' split
    all_goals first | rfl | exact ih | simp only [job_remove_jid_shell_pgid]

theorem singleWaitLoop_shell_pgid (sh : Shell) (j : Option Nat) (pid : Int) (ws : List WaitRes) :
    (singleWaitLoop sh j pid ws).sh.shell_pgid = sh.shell_pgid := by
  induction ws with
  | nil => rfl
  | cons r rs ih =>
    unfold singleWaitLoop
    repeat' split
    all_goals first
      | rfl
      | exact ih
      | (dsimp only; split <;> first | rfl | simp only [job_remove_jid_shell_pgid])

theorem pipelineWaitLoop_shell_pgid (sh : Shell) (j : Option Nat) (pgid : Int)
    (ws : List WaitRes) : (pipelineWaitLoop sh j pgid ws).sh.shell_pgid = sh.shell_pgid := by
  induction ws with
  | nil => rfl
  | cons r rs ih =>
    unfold pipelineWaitLoop
    repeat' split
    all_goals first
      | rfl
      | exact ih
      | (dsimp only; split <;> simp only [job_remove_jid_shell_pgid, job_mark_done_shell_pgid,
          job_mark_stopped_shell_pgid])

theorem enteredWait_jobsListing (sh : Shell) : enteredWait (jobsListing sh) = false := by
  simp only [enteredWait, jobsListing, List.any_eq_false]
  intro x hx
  obtain ⟨j, _, rfl⟩ := List.mem_map.1 hx
  simp

theorem WaitRestores.last {pg : Int} {r : Run} (h : WaitRestores pg r) {rv : Int}
    (hret : r.out = Outcome.returned rv) (hw : enteredWait r.eff = true) :
    lastTcsetpgrp r.eff = some (STDIN_FILENO, pg) := by
  rcases h with h | ⟨pre, post, h, hpost⟩ | h
  · rw [h] at hw; cases hw
  · rw [h, lastTcsetpgrp_append]
    simp [lastTcsetpgrp, hpost, tcArgs]
  · exact absurd hret (h rv)

theorem sendCont_noWait (pgid : Int) (sys : Sys) : enteredWait (sendCont pgid sys) = false := by
  unfold sendCont
  split <;> rfl

theorem builtin_bg_noWait (sh : Shell) (rest : List String) (sys : Sys) :
    enteredWait (builtin_bg sh rest sys).eff = false := by
  unfold builtin_bg
  split
  · rfl
  · split
    · dsimp only
      split
      · rfl
      · split
        · rfl
        · dsimp only
          rw [enteredWait_append, sendCont_noWait]
          rfl
    · rfl

theorem builtin_fg_restores (sh : Shell) (rest : List String) (sys : Sys) :
    WaitRestores sh.shell_pgid (builtin_fg sh rest sys) := by
  unfold builtin_fg
  split
  · exact Or.inl rfl
  · split
    · dsimp only
      split
      · exact Or.inl rfl
      · split
        · exact Or.inl rfl
        · split
          · rw [fgWaitLoop_shell_pgid]
            refine Or.inr (Or.inl ⟨_, _, rfl, ?_⟩)
            split <;> rfl
          · rename_i hne
            refine Or.inr (Or.inr ?_)
            intro rv hrv
            exact hne rv hrv
    · exact Or.inl rfl

theorem handle_builtins_restores (sh : Shell) (c : Command) (sys : Sys) :
    WaitRestores sh.shell_pgid (handle_builtins sh c sys) := by
  unfold handle_builtins
  split
  · exact Or.inl rfl
  · split_ifs
    · exact Or.inl rfl
    · refine Or.inl ?_
      unfold builtin_cd
      repeat' split
      all_goals rfl
    · refine Or.inl ?_
      unfold builtin_pwd
      split <;> rfl
    · refine Or.inl ?_
      unfold builtin_find
      split <;> rfl
    · exact Or.inl (enteredWait_jobsListing sh)
    · exact Or.inl (builtin_bg_noWait sh _ sys)
    · exact builtin_fg_restores sh _ sys
    · exact Or.inl rfl

theorem builtin_cd_out (sh : Shell) (rest : List String) (sys : Sys) :
    (builtin_cd sh rest sys).out = Outcome.returned 1 := by
  unfold builtin_cd
  repeat' split
  all_goals rfl

theorem builtin_pwd_out (sh : Shell) (sys : Sys) :
    (builtin_pwd sh sys).out = Outcome.returned 1 := by
  unfold builtin_pwd
  split <;> rfl

theorem builtin_find_out (sh : Shell) (rest : List String) :
    (builtin_find sh rest).out = Outcome.returned 1 := by
  unfold builtin_find
  split <;> rfl

theorem builtin_bg_out (sh : Shell) (rest : List String) (sys : Sys) (rv : Int)
    (h : (builtin_bg sh rest sys).out = Outcome.returned rv) : rv = 1 := by
  unfold builtin_bg at h
  split at h
  · cases h; rfl
  · split at h
    · dsimp only at h
      split at h
      · cases h; rfl
      · split at h
        · cases h
        · cases h; rfl
    · cases h; rfl

theorem builtin_fg_out (sh : Shell) (rest : List String) (sys : Sys) (rv : Int)
    (h : (builtin_fg sh rest sys).out = Outcome.returned rv) : rv = 1 := by
  unfold builtin_fg at h
  split at h
  · cases h; rfl
  · split at h
    · dsimp only at h
      split at h
      · cases h; rfl
      · split at h
        · cases h
        · split at h
          · cases h; rfl
          · rename_i hne
            exact absurd h (hne rv)
    · cases h; rfl

/-- When `handle_builtins` returns 0 it has done nothing. -/
theorem handle_builtins_zero (sh : Shell) (c : Command) (sys : Sys)
    (h : (handle_builtins sh c sys).out = Outcome.returned 0) :
    handle_builtins sh c sys = ⟨sh, [], Outcome.returned 0⟩ := by
  unfold handle_builtins at h ⊢
  split
  · rfl
  · rename_i a0 rest heq
    simp only [heq] at h
    split_ifs at h ⊢
    all_goals first
      | rfl
      | (rw [builtin_cd_out] at h; simp at h)
      | (rw [builtin_pwd_out] at h; simp at h)
      | (rw [builtin_find_out] at h; simp at h)
      | exact absurd (builtin_bg_out sh _ sys 0 h) (by decide)
      | exact absurd (builtin_fg_out sh _ sys 0 h) (by decide)
      | (simp at h)

theorem handle_builtins_shell_pgid (sh : Shell) (c : Command) (sys : Sys) :
    (handle_builtins sh c sys).sh.shell_pgid = sh.shell_pgid := by
  unfold handle_builtins
  split
  · rfl
  · split_ifs
    · rfl
    · unfold builtin_cd
      repeat' split
      all_goals rfl
    · unfold builtin_pwd
      split <;> rfl
    · unfold builtin_find
      split <;> rfl
    · rfl
    · unfold builtin_bg
      split
      · rfl
      · split
        · dsimp only
          split
          · rfl
          · split <;> rfl
        · rfl
    · unfold builtin_fg
      split
      · rfl
      · split
        · dsimp only
          split
          · rfl
          · split
            · rfl
            · split <;> exact fgWaitLoop_shell_pgid _ _ _
        · rfl
    · rfl

theorem makePipes_noWait (sys : Sys) (n i : Nat) : enteredWait (makePipes sys n i).1 = false := by
  induction n generalizing i with
  | zero => rfl
  | succ n ih =>
    unfold makePipes
    split
    · rfl
    · exact ih (i + 1)

theorem cleanupWaits_noWait (pids : List Int) :
    enteredWait (pids.map (fun p => Eff.waitpid p 0)) = false := by
  induction pids with
  | nil => rfl
  | cons p ps ih => exact ih

theorem forkStages_noWait (sys : Sys) (num n i : Nat) (pgid : Int) (pids : List Int) :
    enteredWait (forkStages sys num n i pgid pids).eff = false := by
  induction n generalizing i pgid pids with
  | zero => rfl
  | succ n ih =>
    unfold forkStages
    dsimp only
    split_ifs
    all_goals first
      | rfl
      | exact cleanupWaits_noWait pids
      | exact ih _ _ _

theorem execute_single_restores (sh : Shell) (c : Command) (foreground : Int) (sys : Sys) :
    WaitRestores sh.shell_pgid (execute_single sh c foreground sys) := by
  unfold execute_single
  split
  · exact Or.inl rfl
  · rename_i a0 rest heq
    dsimp only
    split
    · rename_i rv hb
      split_ifs with hrv hneg hzero hbg
      · rcases handle_builtins_restores sh c sys with h | h | h
        · exact Or.inl h
        · exact Or.inr (Or.inl h)
        · exact absurd hb (h rv)
      · have hrv0 : rv = 0 := by simpa using hrv
        rw [hrv0] at hb
        rw [handle_builtins_zero sh c sys hb]
        exact Or.inl rfl
      · exact Or.inr (Or.inr (fun rv h => by cases h))
      · have hrv0 : rv = 0 := by simpa using hrv
        rw [hrv0] at hb
        rw [handle_builtins_zero sh c sys hb]
        dsimp only
        split
        · exact Or.inr (Or.inr (fun rv h => by cases h))
        · exact Or.inl rfl
      · have hrv0 : rv = 0 := by simpa using hrv
        rw [hrv0] at hb
        rw [handle_builtins_zero sh c sys hb]
        dsimp only
        split
        · rw [singleWaitLoop_shell_pgid, job_add_shell_pgid]
          exact Or.inr (Or.inl ⟨_, [], rfl, rfl⟩)
        · rename_i hne
          exact Or.inr (Or.inr (fun rv h => hne rv h))
    · rename_i hne
      exact Or.inr (Or.inr (fun rv h => hne rv h))

theorem execute_pipeline_restores (sh : Shell) (cmds : List Command)
    (foreground background_flag : Int) (line : String) (sys : Sys) :
    WaitRestores sh.shell_pgid (execute_pipeline sh cmds foreground background_flag line sys) := by
  unfold execute_pipeline
  dsimp only
  by_cases hp : (makePipes sys (cmds.length - 1) 0).2 = false
  · rw [if_pos hp]
    exact Or.inl (makePipes_noWait sys _ _)
  · rw [if_neg hp]
    split
    · refine Or.inl ?_
      rw [enteredWait_append, makePipes_noWait, forkStages_noWait]
      rfl
    · exact Or.inr (Or.inr (fun rv h => by cases h))
    · by_cases hbg : background_flag ≠ 0
      · rw [if_pos hbg]
        split
        · exact Or.inr (Or.inr (fun rv h => by cases h))
        · refine Or.inl ?_
          rw [enteredWait_append, enteredWait_append, makePipes_noWait, forkStages_noWait]
          rfl
      · rw [if_neg hbg]
        split
        · rw [pipelineWaitLoop_shell_pgid, job_add_shell_pgid]
          refine Or.inr (Or.inl ⟨_, _, rfl, ?_⟩)
          split <;> rfl
        · rename_i hne
          exact Or.inr (Or.inr (fun rv h => hne rv h))

theorem getElem?_of_lt {l : List Job} {i : Nat} (h : i < l.length) : ∃ a, l[i]? = some a :=
  ⟨l[i], List.getElem?_eq_getElem h⟩

/-- The wait loop of `fg` returns as soon as a result ends the wait. -/
theorem fgWaitLoop_returns (sh : Shell) (j : Nat) (ws : List WaitRes) (hj : j < sh.jobs.length)
    (h : ws.any endsWait = true) : (fgWaitLoop sh j ws).out = Outcome.returned 0 := by
  obtain ⟨job, hjob⟩ := getElem?_of_lt hj
  induction ws with
  | nil => simp at h
  | cons r rs ih =>
    unfold fgWaitLoop
    simp only [hjob]
    by_cases hr : endsWait r = true
    · unfold endsWait at hr
      split_ifs at hr with hw
      · simp only [hw, if_true]
        have : r.errno = ECHILD := by simpa using hr
        simp [this]
      · simp only [hw, if_false]
        by_cases hs : WIFSTOPPED r.status = true
        · simp [hs]
        · have he : (WIFEXITED r.status || WIFSIGNALED r.status) = true := by simpa [hs] using hr
          simp [hs, he]
    · have hrest : rs.any endsWait = true := by simpa [hr] using h
      have ih := ih hrest
      unfold endsWait at hr
      split_ifs at hr with hw
      · have : ¬ r.errno = ECHILD := by simpa using hr
        simp only [hw, if_true, this, if_false]
        exact ih
      · simp only [Bool.or_eq_true, not_or] at hr
        have h1 : ¬ WIFSTOPPED r.status = true := hr.1
        have h2 : ¬ ((WIFEXITED r.status || WIFSIGNALED r.status) = true) := by
          simpa using hr.2
        simp only [hw, if_false, h1, h2]
        exact ih

theorem setSlot_isSome (f : Job → Job) {l : List Job} {i : Nat} (h : i < l.length) (k : Nat) :
    ∃ a, (setSlot f l k)[i]? = some a :=
  getElem?_of_lt (by rw [setSlot_length]; exact h)

theorem job_mark_stopped_length (sh : Shell) (pgid : Int) :
    (job_mark_stopped sh pgid).jobs.length = sh.jobs.length := by
  unfold job_mark_stopped
  split
  · exact setSlot_length _ _ _
  · rfl

theorem job_mark_done_length (sh : Shell) (pgid : Int) :
    (job_mark_done sh pgid).jobs.length = sh.jobs.length := by
  unfold job_mark_done
  split
  · exact setSlot_length _ _ _
  · rfl

/-- The wait loop of `execute_single` returns as soon as a result ends the
wait, when the job pointer is not `NULL`. -/
theorem singleWaitLoop_returns (sh : Shell) (i : Nat) (pid : Int) (ws : List WaitRes)
    (hi : i < sh.jobs.length) (h : ws.any endsWait = true) :
    (singleWaitLoop sh (some i) pid ws).out = Outcome.returned 0 := by
  induction ws with
  | nil => simp at h
  | cons r rs ih =>
    unfold singleWaitLoop
    by_cases hr : endsWait r = true
    · unfold endsWait at hr
      split_ifs at hr with hw
      · have : r.errno = ECHILD := by simpa using hr
        simp [hw, this]
      · simp only [hw, if_false]
        by_cases hs : WIFSTOPPED r.status = true
        · obtain ⟨a, ha⟩ := setSlot_isSome (withStatusBg JOB_STOPPED 1) hi i
          simp [hs, ha]
        · have he : (WIFEXITED r.status || WIFSIGNALED r.status) = true := by simpa [hs] using hr
          obtain ⟨a, ha⟩ := setSlot_isSome (withStatus JOB_DONE) hi i
          simp [hs, he, ha]
    · have hrest : rs.any endsWait = true := by simpa [hr] using h
      have ih := ih hrest
      unfold endsWait at hr
      split_ifs at hr with hw
      · have : ¬ r.errno = ECHILD := by simpa using hr
        simp only [hw, if_true, this, if_false]
        exact ih
      · simp only [Bool.or_eq_true, not_or] at hr
        have h1 : ¬ WIFSTOPPED r.status = true := hr.1
        have h2 : ¬ ((WIFEXITED r.status || WIFSIGNALED r.status) = true) := by
          simpa using hr.2
        simp only [hw, if_false, h1, h2]
        exact ih

/-- The wait loop of `execute_pipeline` returns as soon as a result ends the
wait, when the job pointer is not `NULL`. -/
theorem pipelineWaitLoop_returns (sh : Shell) (i : Nat) (pgid : Int) (ws : List WaitRes)
    (hi : i < sh.jobs.length) (h : ws.any endsWait = true) :
    (pipelineWaitLoop sh (some i) pgid ws).out = Outcome.returned 0 := by
  induction ws with
  | nil => simp at h
  | cons r rs ih =>
    unfold pipelineWaitLoop
    by_cases hr : endsWait r = true
    · unfold endsWait at hr
      split_ifs at hr with hw
      · have : r.errno = ECHILD := by simpa using hr
        simp [hw, this]
      · simp only [hw, if_false]
        by_cases hs : WIFSTOPPED r.status = true
        · obtain ⟨a, ha⟩ := getElem?_of_lt (l := (job_mark_stopped sh pgid).jobs) (i := i)
            (by rw [job_mark_stopped_length]; exact hi)
          simp [hs, deref, ha]
        · have he : (WIFEXITED r.status || WIFSIGNALED r.status) = true := by simpa [hs] using hr
          obtain ⟨a, ha⟩ := getElem?_of_lt (l := (job_mark_done sh pgid).jobs) (i := i)
            (by rw [job_mark_done_length]; exact hi)
          simp [hs, he, deref, ha]
    · have hrest : rs.any endsWait = true := by simpa [hr] using h
      have ih := ih hrest
      unfold endsWait at hr
      split_ifs at hr with hw
      · have : ¬ r.errno = ECHILD := by simpa using hr
        simp only [hw, if_true, this, if_false]
        exact ih
      · simp only [Bool.or_eq_true, not_or] at hr
        have h1 : ¬ WIFSTOPPED r.status = true := hr.1
        have h2 : ¬ ((WIFEXITED r.status || WIFSIGNALED r.status) = true) := by
          simpa using hr.2
        simp only [hw, if_false, h1, h2]
        exact ih

/-- C9: whenever the `fg` built-in (`handle_builtins`), `execute_single` or
`execute_pipeline` returns after calling the blocking `waitpid(..., WUNTRACED)`
of its wait loop, whatever results the waits delivered (exit, termination by a
signal, stop, or the error `ECHILD`), the last `tcsetpgrp` call of the run is
`tcsetpgrp(STDIN_FILENO, shell_pgid)`. -/
theorem terminal_restored_after_foreground_wait :
    (∀ (sh : Shell) (c : Command) (sys : Sys) (rv : Int),
      (handle_builtins sh c sys).out = Outcome.returned rv →
      enteredWait (handle_builtins sh c sys).eff = true →
      lastTcsetpgrp (handle_builtins sh c sys).eff = some (STDIN_FILENO, sh.shell_pgid)) ∧
    (∀ (sh : Shell) (c : Command) (foreground : Int) (sys : Sys) (rv : Int),
      (execute_single sh c foreground sys).out = Outcome.returned rv →
      enteredWait (execute_single sh c foreground sys).eff = true →
      lastTcsetpgrp (execute_single sh c foreground sys).eff =
        some (STDIN_FILENO, sh.shell_pgid)) ∧
    (∀ (sh : Shell) (cmds : List Command) (foreground background_flag : Int) (line : String)
      (sys : Sys) (rv : Int),
      (execute_pipeline sh cmds foreground background_flag line sys).out = Outcome.returned rv →
      enteredWait (execute_pipeline sh cmds foreground background_flag line sys).eff = true →
      lastTcsetpgrp (execute_pipeline sh cmds foreground background_flag line sys).eff =
        some (STDIN_FILENO, sh.shell_pgid)) :=
  ⟨fun sh c sys _ hret hw => (handle_builtins_restores sh c sys).last hret hw,
    fun sh c fg sys _ hret hw => (execute_single_restores sh c fg sys).last hret hw,
    fun sh cmds fg bg line sys _ hret hw =>
      (execute_pipeline_restores sh cmds fg bg line sys).last hret hw⟩

set_option maxRecDepth 100000 in
theorem terminal_restored_after_foreground_wait_witness :
    ((handle_builtins stoppedShell (plainCmd ["fg", "%1"])
          (sysOk 0 [⟨-1, 4, .exited 0⟩, ⟨100, 0, .stopped 20⟩])).out = Outcome.returned 1 ∧
      enteredWait (handle_builtins stoppedShell (plainCmd ["fg", "%1"])
          (sysOk 0 [⟨-1, 4, .exited 0⟩, ⟨100, 0, .stopped 20⟩])).eff = true ∧
      lastTcsetpgrp (handle_builtins stoppedShell (plainCmd ["fg", "%1"])
          (sysOk 0 [⟨-1, 4, .exited 0⟩, ⟨100, 0, .stopped 20⟩])).eff =
        some (STDIN_FILENO, stoppedShell.shell_pgid)) ∧
    ((execute_single (initShell 7) (plainCmd ["sleep", "1"]) 1
          (sysOk 300 [⟨300, 0, .signaled 2⟩])).out = Outcome.returned 0 ∧
      enteredWait (execute_single (initShell 7) (plainCmd ["sleep", "1"]) 1
          (sysOk 300 [⟨300, 0, .signaled 2⟩])).eff = true ∧
      lastTcsetpgrp (execute_single (initShell 7) (plainCmd ["sleep", "1"]) 1
          (sysOk 300 [⟨300, 0, .signaled 2⟩])).eff = some (STDIN_FILENO, (initShell 7).shell_pgid)) ∧
    ((execute_pipeline (initShell 7) [plainCmd ["cat", "f"], plainCmd ["wc"]] 1 0 "cat f | wc"
          (sysOk 400 [⟨-1, ECHILD, .exited 0⟩])).out = Outcome.returned 0 ∧
      enteredWait (execute_pipeline (initShell 7) [plainCmd ["cat", "f"], plainCmd ["wc"]] 1 0
          "cat f | wc" (sysOk 400 [⟨-1, ECHILD, .exited 0⟩])).eff = true ∧
      lastTcsetpgrp (execute_pipeline (initShell 7) [plainCmd ["cat", "f"], plainCmd ["wc"]] 1 0
          "cat f | wc" (sysOk 400 [⟨-1, ECHILD, .exited 0⟩])).eff =
        some (STDIN_FILENO, (initShell 7).shell_pgid)) :=
  ⟨⟨by decide, by decide,
      terminal_restored_after_foreground_wait.1 _ _ _ 1 (by decide) (by decide)⟩,
    ⟨by decide, by decide,
      terminal_restored_after_foreground_wait.2.1 _ _ _ _ 0 (by decide) (by decide)⟩,
    ⟨by decide, by decide,
      terminal_restored_after_foreground_wait.2.2 _ _ _ _ _ _ 0 (by decide) (by decide)⟩⟩

set_option maxRecDepth 100000 in
/-- The trace of `fg %1` on `stoppedShell` when the job is stopped again. -/
theorem fg_trace_on_stoppedShell :
    (handle_builtins stoppedShell (plainCmd ["fg", "%1"])
        (sysOk 0 [⟨-1, 4, .exited 0⟩, ⟨100, 0, .stopped 20⟩])).eff =
      [Eff.kill (-100) 18, Eff.tcsetpgrp 0 100, Eff.waitpid (-100) 2, Eff.waitpid (-100) 2,
        Eff.stdout "[1]+ Stopped\tvim\n", Eff.tcsetpgrp 0 7] := by
  decide

/-! ## C2: the reaper on the exit of a background job -/

set_option maxRecDepth 100000 in
/-- C2 (fails on the code): on the table holding the running background job
`[1] 100 sleep 1` with the flag set, `check_sigchld_and_reap` processing the
exit of process 100 prints nothing (its trace is the two `waitpid` calls), and
afterwards the job is still in the table, with status Done and
`is_background = 0`: `job_by_jid 1` and `job_by_pgid 100` both find slot 0. -/
theorem reaper_exit_of_background_job :
    bgSleepShell.jobs[0]? = some
      { jid := 1, pgid := 100, cmdline := "sleep 1", status := JOB_RUNNING, is_background := 1 } ∧
    bgSleepShell.sigchld_flag = 1 ∧
    (check_sigchld_and_reap bgSleepShell [exit100]).2 =
      [Eff.waitpid (-1) 11, Eff.waitpid (-1) 11] ∧
    Eff.stdout "\n[1]+ Done\tsleep 1\n" ∉ (check_sigchld_and_reap bgSleepShell [exit100]).2 ∧
    (check_sigchld_and_reap bgSleepShell [exit100]).1.jobs[0]? = some
      { jid := 1, pgid := 100, cmdline := "sleep 1", status := JOB_DONE, is_background := 0 } ∧
    job_by_jid (check_sigchld_and_reap bgSleepShell [exit100]).1 1 = some 0 ∧
    job_by_pgid (check_sigchld_and_reap bgSleepShell [exit100]).1 100 = some 0 := by
  decide

theorem findSlot_setSlot (p : Job → Bool) (f : Job → Job) (l : List Job) (i : Nat)
    (hp : ∀ j, p (f j) = p j) : findSlot p (setSlot f l i) = findSlot p l := by
  induction l generalizing i with
  | nil => rfl
  | cons a as ih =>
    cases i with
    | zero => simp [setSlot, findSlot, hp]
    | succ i => simp [setSlot, findSlot, ih]

theorem job_by_pgid_job_mark_done (sh : Shell) (pgid q : Int) :
    job_by_pgid (job_mark_done sh pgid) q = job_by_pgid sh q := by
  unfold job_mark_done
  split
  · exact findSlot_setSlot _ _ _ _ (fun _ => rfl)
  · rfl

theorem job_by_jid_job_mark_done (sh : Shell) (pgid jid : Int) :
    job_by_jid (job_mark_done sh pgid) jid = job_by_jid sh jid := by
  unfold job_mark_done
  split
  · exact findSlot_setSlot _ _ _ _ (fun _ => rfl)
  · rfl

/-- After `job_mark_done(pgid)` the job found by `job_by_pgid(pgid)` has
`is_background = 0`. -/
theorem job_mark_done_clears_background (sh : Shell) (pgid : Int) (j : Job)
    (h : deref (job_mark_done sh pgid) (job_by_pgid (job_mark_done sh pgid) pgid) = some j) :
    j.is_background = 0 ∧ j.status = JOB_DONE := by
  rw [job_by_pgid_job_mark_done] at h
  unfold job_mark_done at h
  cases hf : job_by_pgid sh pgid with
  | none => simp [hf, deref] at h
  | some i =>
    simp only [hf, deref, setSlot_getElem?, if_true, Option.map_eq_some'] at h
    obtain ⟨a, _, rfl⟩ := h
    exact ⟨rfl, rfl⟩

/-- The reaper on one exit or signal-termination event, for every table: it
marks the job of the resolved group Done, prints nothing, and removes nothing
(both lookups find what they found before). -/
theorem reaper_exit_prints_nothing (sh : Shell) (ev : ChildEvent) (hflag : sh.sigchld_flag ≠ 0)
    (hpid : 0 < ev.pid) (hst : (WIFEXITED ev.status || WIFSIGNALED ev.status) = true) :
    check_sigchld_and_reap sh [ev] =
      (job_mark_done { sh with sigchld_flag := 0 } (if ev.getpgid < 0 then ev.pid else ev.getpgid),
        [Eff.waitpid (-1) (WNOHANG + WUNTRACED + WCONTINUED),
          Eff.waitpid (-1) (WNOHANG + WUNTRACED + WCONTINUED)]) ∧
    (∀ q, job_by_pgid (check_sigchld_and_reap sh [ev]).1 q = job_by_pgid sh q) ∧
    (∀ jid, job_by_jid (check_sigchld_and_reap sh [ev]).1 jid = job_by_jid sh jid) := by
  have hrun : check_sigchld_and_reap sh [ev] =
      (job_mark_done { sh with sigchld_flag := 0 }
          (if ev.getpgid < 0 then ev.pid else ev.getpgid),
        [Eff.waitpid (-1) (WNOHANG + WUNTRACED + WCONTINUED),
          Eff.waitpid (-1) (WNOHANG + WUNTRACED + WCONTINUED)]) := by
    unfold check_sigchld_and_reap
    simp only [hflag, if_false]
    unfold reapLoop
    simp only [gt_iff_lt, hpid, if_true, hst]
    cases hd : deref (job_mark_done { sh with sigchld_flag := 0 }
        (if ev.getpgid < 0 then ev.pid else ev.getpgid))
        (job_by_pgid (job_mark_done { sh with sigchld_flag := 0 }
          (if ev.getpgid < 0 then ev.pid else ev.getpgid))
          (if ev.getpgid < 0 then ev.pid else ev.getpgid)) with
    | none => simp [reapLoop]
    | some j =>
      have := (job_mark_done_clears_background _ _ j hd).1
      simp [reapLoop, this]
  refine ⟨hrun, ?_, ?_⟩
  · intro q
    rw [hrun]
    exact job_by_pgid_job_mark_done _ _ q
  · intro jid
    rw [hrun]
    exact job_by_jid_job_mark_done _ _ jid

/-! ## C3: `fg` and `bg` with a bad job specifier -/

set_option maxRecDepth 100000 in
/-- C3 (fails on the code): on the initial table, `bg %abc` reports no error:
`atoi` gives 0, `job_by_jid(0)` returns the free slot 0, `SIGCONT` is sent with
`kill(0, SIGCONT)`, the slot's `is_background` becomes 1 and `[0]+  &` is
printed; `fg %abc` likewise sends the signal, hands the terminal to group 0 and
enters the wait loop (`waitpid(0, ..., WUNTRACED)`).  The same happens for
`%0` and for `%` alone. -/
theorem bad_job_spec_accepted :
    handle_builtins (initShell 7) (plainCmd ["bg", "%abc"]) (sysOk 0 []) =
      ⟨{ initShell 7 with jobs := setSlot (withStatusBg JOB_RUNNING 1) (initShell 7).jobs 0 },
        [Eff.kill 0 SIGCONT, Eff.stdout "[0]+  &\n"], Outcome.returned 1⟩ ∧
    (handle_builtins (initShell 7) (plainCmd ["bg", "%abc"]) (sysOk 0 [])).sh.jobs[0]? =
      some { jid := 0, pgid := 0, cmdline := "", status := JOB_RUNNING, is_background := 1 } ∧
    (initShell 7).jobs[0]? =
      some { jid := 0, pgid := 0, cmdline := "", status := JOB_RUNNING, is_background := 0 } ∧
    (handle_builtins (initShell 7) (plainCmd ["fg", "%abc"])
        (sysOk 0 [⟨-1, ECHILD, .exited 0⟩])).eff =
      [Eff.kill 0 SIGCONT, Eff.tcsetpgrp STDIN_FILENO 0, Eff.waitpid 0 WUNTRACED,
        Eff.tcsetpgrp STDIN_FILENO 7] ∧
    (handle_builtins (initShell 7) (plainCmd ["fg", "%abc"]) (sysOk 0 [])).out =
      Outcome.blocked ∧
    (handle_builtins (initShell 7) (plainCmd ["bg", "%0"]) (sysOk 0 [])).eff =
      [Eff.kill 0 SIGCONT, Eff.stdout "[0]+  &\n"] ∧
    (handle_builtins (initShell 7) (plainCmd ["bg", "%"]) (sysOk 0 [])).eff =
      [Eff.kill 0 SIGCONT, Eff.stdout "[0]+  &\n"] := by
  decide

/-- The part of C3 that holds: a missing argument, an argument not starting
with `%`, and `%N` for an `N` that `job_by_jid` does not find, are answered by
one message on `stderr`, with the globals unchanged and no other action. -/
theorem bad_job_spec_rejected (sh : Shell) (sys : Sys) :
    builtin_bg sh [] sys = ⟨sh, [Eff.stderr "bg: missing job spec\n"], Outcome.returned 1⟩ ∧
    builtin_fg sh [] sys = ⟨sh, [Eff.stderr "fg: missing job spec\n"], Outcome.returned 1⟩ ∧
    (∀ (s : String) (more : List String), s.data.head? ≠ some '%' →
      builtin_bg sh (s :: more) sys =
          ⟨sh, [Eff.stderr "bg: job spec should be %N\n"], Outcome.returned 1⟩ ∧
        builtin_fg sh (s :: more) sys =
          ⟨sh, [Eff.stderr "fg: job spec should be %N\n"], Outcome.returned 1⟩) ∧
    (∀ (s : String) (more : List String) (tail : List Char), s.data = '%' :: tail →
      job_by_jid sh (atoi tail) = none →
      builtin_bg sh (s :: more) sys =
          ⟨sh, [Eff.stderr ("bg: no such job " ++ toString (atoi tail) ++ "\n")],
            Outcome.returned 1⟩ ∧
        builtin_fg sh (s :: more) sys =
          ⟨sh, [Eff.stderr ("fg: no such job " ++ toString (atoi tail) ++ "\n")],
            Outcome.returned 1⟩) := by
  refine ⟨rfl, rfl, ?_, ?_⟩
  · intro s more hs
    simp only [builtin_bg, builtin_fg]
    constructor
    · split
      · rename_i tail heq
        rw [heq] at hs
        exact absurd rfl hs
      · rfl
    · split
      · rename_i tail heq
        rw [heq] at hs
        exact absurd rfl hs
      · rfl
  · intro s more tail hs hnone
    simp only [builtin_bg, builtin_fg, hs, hnone]
    exact ⟨trivial, trivial⟩

/-! ## C4: the foreground wait of a pipeline -/

set_option maxRecDepth 100000 in
/-- C4 (fails on the code): the pipeline `A | B | C` launched in the foreground
from the initial table, with child pids 100, 101, 102.  The only `waitpid`
result supplied is the exit of `A` (pid 100): `execute_pipeline` returns after
that single `waitpid` call, having removed the job and given the terminal back
to the shell, while no termination of `B` or `C` has been observed.  With the
exits of all three supplied, the trace is the same: the second and third
results are never asked for. -/
theorem pipeline_wait_ends_at_first_exit :
    execute_pipeline (initShell 7) [plainCmd ["A"], plainCmd ["B"], plainCmd ["C"]] 1 0
        "A | B | C" (sysOk 100 [⟨100, 0, .exited 0⟩]) =
      ⟨{ initShell 7 with
          jobs := setSlot (fun _ => removedJob) (initShell 7).jobs 0, next_jid := 2 },
        [Eff.pipe 0, Eff.pipe 1,
          Eff.fork, Eff.setpgid 100 100, Eff.closePipe 0 1,
          Eff.fork, Eff.setpgid 101 100, Eff.closePipe 0 0, Eff.closePipe 1 1,
          Eff.fork, Eff.setpgid 102 100, Eff.closePipe 1 0,
          Eff.tcsetpgrp STDIN_FILENO 100, Eff.waitpid (-100) WUNTRACED,
          Eff.tcsetpgrp STDIN_FILENO 7],
        Outcome.returned 0⟩ ∧
    (execute_pipeline (initShell 7) [plainCmd ["A"], plainCmd ["B"], plainCmd ["C"]] 1 0
        "A | B | C"
        (sysOk 100 [⟨100, 0, .exited 0⟩, ⟨101, 0, .exited 0⟩, ⟨102, 0, .exited 0⟩])).eff =
      (execute_pipeline (initShell 7) [plainCmd ["A"], plainCmd ["B"], plainCmd ["C"]] 1 0
        "A | B | C" (sysOk 100 [⟨100, 0, .exited 0⟩])).eff := by
  decide

/-- The wait loop of `execute_pipeline` never makes a second `waitpid` call
once a call has reported an exit or a termination by a signal: whatever
results follow, it has returned or dereferenced `NULL` after that one call. -/
theorem pipelineWaitLoop_first_exit (sh : Shell) (j : Option Nat) (pgid : Int) (r : WaitRes)
    (rs : List WaitRes) (hw : 0 ≤ r.w)
    (hst : (WIFEXITED r.status || WIFSIGNALED r.status) = true) :
    (pipelineWaitLoop sh j pgid (r :: rs)).eff = [Eff.waitpid (-pgid) WUNTRACED] ∧
      (pipelineWaitLoop sh j pgid (r :: rs)).out ≠ Outcome.blocked := by
  have hw1 : ¬ r.w < 0 := by omega
  have hs : WIFSTOPPED r.status = false := by
    cases hr : r.status <;> simp [hr, WIFEXITED, WIFSIGNALED, WIFSTOPPED] at hst ⊢
  unfold pipelineWaitLoop
  simp only [hw1, if_false, hs, hst, if_true, Bool.false_eq_true]
  split <;> simp

/-! ## C5: launching into a full table -/

set_option maxRecDepth 100000 in
/-- C5 (fails on the code): with all 128 slots active, a background launch by
`execute_single` and by `execute_pipeline` dereferences the `NULL` returned by
`job_by_jid(-1)` in the `printf` of the launch notice; a foreground launch
dereferences it when the child exits (`execute_single`: `j->status`,
`execute_pipeline`: `j->jid`) or stops.  No message is written in any of these
runs, and the table is unchanged. -/
theorem launch_into_full_table :
    (∀ j ∈ fullShell.jobs, j.jid ≠ 0) ∧ fullShell.jobs.length = MAX_JOBS ∧
    execute_single fullShell (plainCmd ["sleep", "1"]) 0 (sysOk 4242 []) =
      ⟨fullShell, [Eff.fork, Eff.setpgid 4242 4242], Outcome.nullDeref⟩ ∧
    execute_pipeline fullShell [plainCmd ["cat", "f"], plainCmd ["wc"]] 0 1 "cat f | wc"
        (sysOk 4242 []) =
      ⟨fullShell,
        [Eff.pipe 0, Eff.fork, Eff.setpgid 4242 4242, Eff.closePipe 0 1,
          Eff.fork, Eff.setpgid 4243 4242, Eff.closePipe 0 0],
        Outcome.nullDeref⟩ ∧
    execute_single fullShell (plainCmd ["sleep", "1"]) 1 (sysOk 4242 [⟨4242, 0, .exited 0⟩]) =
      ⟨fullShell,
        [Eff.fork, Eff.setpgid 4242 4242, Eff.tcsetpgrp STDIN_FILENO 4242,
          Eff.waitpid (-4242) WUNTRACED],
        Outcome.nullDeref⟩ ∧
    execute_pipeline fullShell [plainCmd ["cat", "f"], plainCmd ["wc"]] 1 0 "cat f | wc"
        (sysOk 4242 [⟨4242, 0, .exited 0⟩]) =
      ⟨fullShell,
        [Eff.pipe 0, Eff.fork, Eff.setpgid 4242 4242, Eff.closePipe 0 1,
          Eff.fork, Eff.setpgid 4243 4242, Eff.closePipe 0 0,
          Eff.tcsetpgrp STDIN_FILENO 4242, Eff.waitpid (-4242) WUNTRACED],
        Outcome.nullDeref⟩ ∧
    (execute_single fullShell (plainCmd ["sleep", "1"]) 1
        (sysOk 4242 [⟨4242, 0, .stopped 20⟩])).out = Outcome.nullDeref ∧
    (execute_pipeline fullShell [plainCmd ["cat", "f"], plainCmd ["wc"]] 1 0 "cat f | wc"
        (sysOk 4242 [⟨4242, 0, .stopped 20⟩])).out = Outcome.nullDeref := by
  decide

theorem makePipes_quiet (sys : Sys) (n start : Nat)
    (h : ∀ i : Nat, i < n → 0 ≤ sys.pipeRet (start + i)) :
    (makePipes sys n start).1.any isReport = false := by
  induction n generalizing start with
  | zero => rfl
  | succ n ih =>
    have h0 : ¬ sys.pipeRet start < 0 := by
      have := h 0 (by omega)
      simpa using this
    simp only [makePipes, h0, if_false]
    refine ih (start + 1) ?_
    intro i hi
    have := h (i + 1) (by omega)
    rwa [show start + 1 + i = start + (i + 1) by omega]

theorem forkStages_quiet (sys : Sys) (num n start : Nat) (pgid : Int) (pids : List Int)
    (h : ∀ i : Nat, i < n → 0 < sys.forkRet (start + i)) :
    (forkStages sys num n start pgid pids).eff.any isReport = false := by
  induction n generalizing start pgid pids with
  | zero => rfl
  | succ n ih =>
    have h0 := h 0 (by omega)
    simp only [Nat.add_zero] at h0
    have h1 : ¬ sys.forkRet start < 0 := by omega
    have h2 : ¬ sys.forkRet start = 0 := by omega
    have hrest : ∀ i : Nat, i < n → 0 < sys.forkRet (start + 1 + i) := by
      intro i hi
      have := h (i + 1) (by omega)
      rwa [show start + 1 + i = start + (i + 1) by omega]
    simp only [forkStages, h1, h2, if_false]
    split_ifs <;> exact ih (start + 1) _ _ hrest

/-- For every table without a free slot and without the id -1, a background
launch of a command that is not a built-in ends in the dereference of `NULL`,
with the table unchanged and nothing written to the user. -/
theorem background_launch_full_table (sh : Shell) (cmds : List Command) (line : String)
    (sys : Sys) (hfull : ∀ j ∈ sh.jobs, j.jid ≠ 0) (hneg : ∀ j ∈ sh.jobs, j.jid ≠ -1)
    (hok : launchOk cmds sys) :
    (dispatch sh cmds 1 line sys).out = Outcome.nullDeref ∧
      (dispatch sh cmds 1 line sys).sh = sh ∧
      (dispatch sh cmds 1 line sys).eff.any isReport = false := by
  have hadd : ∀ pgid text bg, job_add sh pgid text bg = (-1, sh) := by
    intro pgid text bg
    have : findSlot (fun j => j.jid == 0) sh.jobs = none :=
      findSlot_eq_none (fun j hj => by simpa using hfull j hj)
    simp [job_add, this]
  have hlook : job_by_jid sh (-1) = none :=
    findSlot_eq_none (fun j hj => by simpa using hneg j hj)
  match cmds, hok with
  | [], hok => simp [launchOk] at hok
  | [c], hok =>
    obtain ⟨⟨a0, rest, hc, hb⟩, hfork⟩ := hok
    have h1 : ¬ sys.forkRet 0 < 0 := by omega
    have h2 : ¬ sys.forkRet 0 = 0 := by omega
    simp only [dispatch, handle_builtins_not_builtin sh c sys hc hb, execute_single, hc, lnot]
    simp [h1, h2, hadd, hlook, deref, isReport]
  | c1 :: c2 :: cs, hok =>
    obtain ⟨_, hpipe, hfork⟩ := hok
    have hpq := makePipes_quiet sys ((c1 :: c2 :: cs).length - 1) 0
      (fun i hi => by
        have := hpipe i (by simp only [List.length_cons] at hi ⊢; omega)
        simpa using this)
    have hp := makePipes_ok sys ((c1 :: c2 :: cs).length - 1) 0
      (fun i hi => by
        have := hpipe i (by simp only [List.length_cons] at hi ⊢; omega)
        simpa using this)
    have hfq := forkStages_quiet sys (c1 :: c2 :: cs).length (c1 :: c2 :: cs).length 0 0 []
      (fun i hi => by simpa using hfork i hi)
    obtain ⟨hf1, hf2⟩ := forkStages_ok sys (c1 :: c2 :: cs).length (c1 :: c2 :: cs).length 0 0 []
      (fun i hi => by simpa using hfork i hi)
    simp only [dispatch, execute_pipeline, hp, hf1, hadd, hlook, deref]
    simp only [Bool.true_eq_false, if_false, ne_eq, one_ne_zero, not_false_eq_true, if_true,
      true_and, List.any_append, hpq, hfq, Bool.or_self]

/-! ## C8: status changes after Done -/

set_option maxRecDepth 100000 in
/-- C8 (fails on the code): the job `[1] 100 sleep 1`, Done and still active
after the reaper saw its exit, is set back to Running by `bg %1` (also when
`kill` fails) and by `fg %1`; and the job of the background pipeline `A | B`,
Done after the exit of `A`, is set to Stopped when the reaper then sees `B`
(pid 101, group 100) stop, and to Running when it sees `B` continue. -/
theorem done_job_changes_status :
    doneShell.jobs[0]? = some
      { jid := 1, pgid := 100, cmdline := "sleep 1", status := JOB_DONE, is_background := 0 } ∧
    (handle_builtins doneShell (plainCmd ["bg", "%1"]) { sysOk 0 [] with killRet := -1 }).sh.jobs[0]?
      = some
      { jid := 1, pgid := 100, cmdline := "sleep 1", status := JOB_RUNNING, is_background := 1 } ∧
    (handle_builtins doneShell (plainCmd ["fg", "%1"])
        { sysOk 0 [⟨-1, ECHILD, .exited 0⟩] with killRet := -1 }).sh.jobs[0]? = some
      { jid := 1, pgid := 100, cmdline := "sleep 1", status := JOB_RUNNING, is_background := 0 } ∧
    (check_sigchld_and_reap bgPipeShell [⟨100, .exited 0, -1⟩]).1.jobs[0]? = some
      { jid := 1, pgid := 100, cmdline := "A | B", status := JOB_DONE, is_background := 0 } ∧
    (check_sigchld_and_reap
        { (check_sigchld_and_reap bgPipeShell [⟨100, .exited 0, -1⟩]).1 with sigchld_flag := 1 }
        [⟨101, .stopped 20, 100⟩]).1.jobs[0]? = some
      { jid := 1, pgid := 100, cmdline := "A | B", status := JOB_STOPPED, is_background := 0 } ∧
    (check_sigchld_and_reap
        { (check_sigchld_and_reap bgPipeShell [⟨100, .exited 0, -1⟩]).1 with sigchld_flag := 1 }
        [⟨101, .continued, 100⟩]).1.jobs[0]? = some
      { jid := 1, pgid := 100, cmdline := "A | B", status := JOB_RUNNING, is_background := 0 } := by
  decide

/-! ## C12: stop and continue events in the reaper -/

theorem findSlot_first {p : Job → Bool} {l : List Job} {i : Nat} {a : Job}
    (hi : l[i]? = some a) (hp : p a = true)
    (hlow : ∀ (k : Nat) (b : Job), k < i → l[k]? = some b → p b = false) :
    findSlot p l = some i := by
  obtain ⟨k, hk, hle⟩ := findSlot_isSome_of hi hp
  obtain ⟨⟨b, hb, hpb⟩, _⟩ := findSlot_some hk
  by_cases hki : k = i
  · rw [← hki]; exact hk
  · have := hlow k b (by omega) hb
    rw [hpb] at this
    cases this

theorem setSlot_eq_self {f : Job → Job} {l : List Job} {i : Nat} {a : Job}
    (hi : l[i]? = some a) (hf : f a = a) : setSlot f l i = l := by
  induction l generalizing i with
  | nil => rfl
  | cons b bs ih =>
    cases i with
    | zero =>
      simp at hi
      subst hi
      simp [setSlot, hf]
    | succ i =>
      simp only [setSlot, List.cons.injEq, true_and]
      exact ih (by simpa using hi)

/-- The table after the reaper has processed one stop event. -/
theorem reaper_on_stop (sh : Shell) (ev : ChildEvent) (hflag : sh.sigchld_flag ≠ 0)
    (hpid : 0 < ev.pid) (hst : WIFSTOPPED ev.status = true) :
    (check_sigchld_and_reap sh [ev]).1 =
      job_mark_stopped { sh with sigchld_flag := 0 } (eventGroup ev) := by
  have h1 : (WIFEXITED ev.status || WIFSIGNALED ev.status) = false := by
    cases hs : ev.status <;> simp [hs, WIFEXITED, WIFSIGNALED, WIFSTOPPED] at hst ⊢
  unfold check_sigchld_and_reap
  simp only [hflag, if_false]
  unfold reapLoop
  simp only [gt_iff_lt, hpid, if_true, h1, hst, Bool.false_eq_true, if_false, eventGroup]
  split <;> rfl

/-- The table after the reaper has processed one continue event. -/
theorem reaper_on_continue (sh : Shell) (ev : ChildEvent) (hflag : sh.sigchld_flag ≠ 0)
    (hpid : 0 < ev.pid) (hst : WIFCONTINUED ev.status = true) :
    (check_sigchld_and_reap sh [ev]).1 =
      job_mark_running { sh with sigchld_flag := 0 } (eventGroup ev) := by
  have h1 : (WIFEXITED ev.status || WIFSIGNALED ev.status) = false := by
    cases hs : ev.status <;> simp [hs, WIFEXITED, WIFSIGNALED, WIFCONTINUED] at hst ⊢
  have h2 : WIFSTOPPED ev.status = false := by
    cases hs : ev.status <;> simp [hs, WIFSTOPPED, WIFCONTINUED] at hst ⊢
  unfold check_sigchld_and_reap
  simp only [hflag, if_false]
  unfold reapLoop
  simp only [gt_iff_lt, hpid, if_true, h1, h2, hst, Bool.false_eq_true, if_false, eventGroup]
  rfl

theorem job_by_pgid_first {sh : Shell} {g : Int} {i : Nat} {j : Job}
    (hi : sh.jobs[i]? = some j) (hact : j.jid ≠ 0) (hg : j.pgid = g)
    (hlow : ∀ (k : Nat) (b : Job), k < i → sh.jobs[k]? = some b → b.jid = 0 ∨ b.pgid ≠ g) :
    job_by_pgid sh g = some i := by
  refine findSlot_first hi (by simp [hact, hg]) ?_
  intro k b hk hb
  rcases hlow k b hk hb with h | h
  · simp [h]
  · simp [h]

theorem job_by_pgid_none {sh : Shell} {g : Int}
    (h : ∀ b ∈ sh.jobs, b.jid = 0 ∨ b.pgid ≠ g) : job_by_pgid sh g = none := by
  refine findSlot_eq_none ?_
  intro b hb
  rcases h b hb with h | h
  · simp [h]
  · simp [h]

/-- The slot written by `setSlot (withStatus s)` and the slots it leaves. -/
theorem setSlot_withStatus (s : job_status_t) {l : List Job} {i : Nat} {j : Job}
    (hi : l[i]? = some j) :
    (setSlot (withStatus s) l i)[i]? = some { j with status := s } ∧
    (∀ k : Nat, k ≠ i → (setSlot (withStatus s) l i)[k]? = l[k]?) ∧
    (setSlot (withStatus s) l i).length = l.length ∧
    (j.status = s → setSlot (withStatus s) l i = l) := by
  refine ⟨?_, ?_, setSlot_length _ _ _, ?_⟩
  · simp [setSlot_getElem?, hi, withStatus]
  · intro k hk
    simp [setSlot_getElem?, hk]
  · intro hs
    refine setSlot_eq_self hi ?_
    cases j
    simp only [withStatus] at hs ⊢
    rw [hs]

/-- C12: `check_sigchld_and_reap`, with the flag set, processing one event
(`pid > 0`) whose resolved group is `g = eventGroup ev`.  When slot `i` holds
the active job `j` of group `g` (the first such slot): a stop event sets the
slot's status to Stopped, a continue event sets it to Running, `jid`, `pgid`,
`cmdline` and `is_background` of the slot, every other slot and `next_jid` are
unchanged, and the table is unchanged when the status already had that value
(a continue event on a Running job).  When no active job has group `g`, a stop
or continue event leaves the table unchanged. -/
theorem reaper_stop_continue_event (sh : Shell) (ev : ChildEvent)
    (hflag : sh.sigchld_flag ≠ 0) (hpid : 0 < ev.pid) :
    (∀ (i : Nat) (j : Job), sh.jobs[i]? = some j → j.jid ≠ 0 → j.pgid = eventGroup ev →
      (∀ (k : Nat) (b : Job), k < i → sh.jobs[k]? = some b →
        b.jid = 0 ∨ b.pgid ≠ eventGroup ev) →
      (WIFSTOPPED ev.status = true →
        (check_sigchld_and_reap sh [ev]).1.jobs[i]? = some { j with status := JOB_STOPPED } ∧
        (∀ k : Nat, k ≠ i → (check_sigchld_and_reap sh [ev]).1.jobs[k]? = sh.jobs[k]?) ∧
        (check_sigchld_and_reap sh [ev]).1.jobs.length = sh.jobs.length ∧
        (check_sigchld_and_reap sh [ev]).1.next_jid = sh.next_jid) ∧
      (WIFCONTINUED ev.status = true →
        (check_sigchld_and_reap sh [ev]).1.jobs[i]? = some { j with status := JOB_RUNNING } ∧
        (∀ k : Nat, k ≠ i → (check_sigchld_and_reap sh [ev]).1.jobs[k]? = sh.jobs[k]?) ∧
        (check_sigchld_and_reap sh [ev]).1.jobs.length = sh.jobs.length ∧
        (check_sigchld_and_reap sh [ev]).1.next_jid = sh.next_jid ∧
        (j.status = JOB_RUNNING → (check_sigchld_and_reap sh [ev]).1.jobs = sh.jobs))) ∧
    ((∀ b ∈ sh.jobs, b.jid = 0 ∨ b.pgid ≠ eventGroup ev) →
      (WIFSTOPPED ev.status = true ∨ WIFCONTINUED ev.status = true) →
      (check_sigchld_and_reap sh [ev]).1.jobs = sh.jobs ∧
      (check_sigchld_and_reap sh [ev]).1.next_jid = sh.next_jid) := by
  constructor
  · intro i j hi hact hg hlow
    have hfind : job_by_pgid { sh with sigchld_flag := 0 } (eventGroup ev) = some i :=
      @job_by_pgid_first { sh with sigchld_flag := 0 } _ _ _ hi hact hg hlow
    obtain ⟨a1, a2, a3, _⟩ := setSlot_withStatus JOB_STOPPED hi
    obtain ⟨b1, b2, b3, b4⟩ := setSlot_withStatus JOB_RUNNING hi
    constructor
    · intro hst
      rw [reaper_on_stop sh ev hflag hpid hst]
      simp only [job_mark_stopped, hfind]
      exact ⟨a1, a2, a3, trivial⟩
    · intro hst
      rw [reaper_on_continue sh ev hflag hpid hst]
      simp only [job_mark_running, hfind]
      exact ⟨b1, b2, b3, trivial, b4⟩
  · intro hnone hst
    have hfind : job_by_pgid { sh with sigchld_flag := 0 } (eventGroup ev) = none :=
      @job_by_pgid_none { sh with sigchld_flag := 0 } _ hnone
    rcases hst with hst | hst
    · rw [reaper_on_stop sh ev hflag hpid hst]
      simp only [job_mark_stopped, hfind]
      exact ⟨trivial, trivial⟩
    · rw [reaper_on_continue sh ev hflag hpid hst]
      simp only [job_mark_running, hfind]
      exact ⟨trivial, trivial⟩

set_option maxRecDepth 100000 in
theorem reaper_stop_continue_event_witness :
    (bgPipeShell.sigchld_flag ≠ 0 ∧ bgPipeShell.jobs[0]? = some pipeJob ∧ pipeJob.jid ≠ 0 ∧
      pipeJob.pgid = eventGroup ⟨101, .stopped 20, 100⟩ ∧
      (check_sigchld_and_reap bgPipeShell [⟨101, .stopped 20, 100⟩]).1.jobs[0]? =
        some { pipeJob with status := JOB_STOPPED } ∧
      (∀ k : Nat, k ≠ 0 →
        (check_sigchld_and_reap bgPipeShell [⟨101, .stopped 20, 100⟩]).1.jobs[k]? =
          bgPipeShell.jobs[k]?)) ∧
    (pipeJob.status = JOB_RUNNING ∧
      (check_sigchld_and_reap bgPipeShell [⟨101, .continued, 100⟩]).1.jobs = bgPipeShell.jobs) ∧
    ((∀ b ∈ bgPipeShell.jobs, b.jid = 0 ∨ b.pgid ≠ eventGroup ⟨555, .stopped 20, -1⟩) ∧
      (check_sigchld_and_reap bgPipeShell [⟨555, .stopped 20, -1⟩]).1.jobs = bgPipeShell.jobs) :=
  have hstop := ((reaper_stop_continue_event bgPipeShell ⟨101, .stopped 20, 100⟩ (by decide)
    (by decide)).1 0 pipeJob (by decide) (by decide) (by decide)
    (fun k _ hk => absurd hk (Nat.not_lt_zero k))).1 rfl
  have hcont := ((reaper_stop_continue_event bgPipeShell ⟨101, .continued, 100⟩ (by decide)
    (by decide)).1 0 pipeJob (by decide) (by decide) (by decide)
    (fun k _ hk => absurd hk (Nat.not_lt_zero k))).2 rfl
  ⟨⟨by decide, by decide, by decide, by decide, hstop.1, hstop.2.1⟩,
    ⟨rfl, hcont.2.2.2.2 rfl⟩,
    ⟨by decide,
      ((reaper_stop_continue_event bgPipeShell ⟨555, .stopped 20, -1⟩ (by decide)
        (by decide)).2 (by decide) (Or.inl rfl)).1⟩⟩

set_option maxRecDepth 100000 in
/-- What the reaper prints and leaves for the stop of `B` in `bgPipeShell`. -/
theorem reaper_stop_on_bgPipeShell :
    check_sigchld_and_reap bgPipeShell [⟨101, .stopped 20, 100⟩] =
      ({ bgPipeShell with
          jobs := setSlot (withStatus JOB_STOPPED) bgPipeShell.jobs 0, sigchld_flag := 0 },
        [Eff.waitpid (-1) 11, Eff.stdout "\n[1]+ Stopped\tA | B\n", Eff.waitpid (-1) 11]) := by
  decide

/-! ## C11: the stage bound of `parse_pipeline` -/

theorem separators_bar (ts : List String) : separators ("|" :: ts) = separators ts + 1 := by
  conv_lhs => rw [separators.eq_def]
  simp

theorem separators_redir {t : String} (f : String) (ts : List String) (hbar : t ≠ "|")
    (hop : t = "<" ∨ t = ">" ∨ t = ">>" ∨ t = "2>") :
    separators (t :: f :: ts) = separators ts := by
  conv_lhs => rw [separators.eq_def]
  simp [hbar, hop]

theorem separators_arg {t : String} (ts : List String) (hbar : t ≠ "|")
    (hop : ¬ (t = "<" ∨ t = ">" ∨ t = ">>" ∨ t = "2>")) :
    separators (t :: ts) = separators ts := by
  conv_lhs => rw [separators.eq_def]
  simp only [hbar, if_false, hop]

theorem parseLoop_ok (max_cmds : Int) (n : Nat) :
    ∀ (ts : List String) (cmds : List Command) (cmd_idx arg_idx : Nat) (w : List Nat),
      ts.length ≤ n → (cmd_idx : Int) < max_cmds → (∀ x ∈ w, (x : Int) < max_cmds) →
      ParseOk max_cmds ts cmd_idx (parseLoop max_cmds ts cmds cmd_idx arg_idx w) := by
  induction n with
  | zero =>
    intro ts cmds cmd_idx arg_idx w hlen hidx hw
    have : ts = [] := List.length_eq_zero.1 (by omega)
    subst this
    refine ⟨?_, Or.inr ⟨by simp [parseLoop, separators], by simp only [parseLoop]; omega⟩, ?_⟩
    · intro x hx
      simp only [parseLoop, List.mem_append, List.mem_singleton] at hx
      rcases hx with hx | hx
      · exact hw x hx
      · rw [hx]; exact hidx
    · intro e he
      simp [parseLoop] at he
  | succ n ih =>
    intro ts cmds cmd_idx arg_idx w hlen hidx hw
    have hw1 : ∀ x ∈ w ++ [cmd_idx], (x : Int) < max_cmds := by
      intro x hx
      rcases List.mem_append.1 hx with hx | hx
      · exact hw x hx
      · rw [List.mem_singleton.1 hx]; exact hidx
    cases ts with
    | nil => exact ih [] cmds cmd_idx arg_idx w (by simp) hidx hw
    | cons t ts =>
      have hlen1 : ts.length ≤ n := by simpa using hlen
      have hfail : ∀ (w1 : List Nat) (msg : String), (∀ x ∈ w1, (x : Int) < max_cmds) →
          ParseOk max_cmds (t :: ts) cmd_idx ⟨cmds, w1, [Eff.stderr msg], -1⟩ := by
        intro w1 msg h1
        exact ⟨h1, Or.inl rfl, fun e he => ⟨msg, by simpa using he⟩⟩
      have hredir : ∀ (g : Command → Command) (f : String) (ts1 : List String),
          ts = f :: ts1 → t ≠ "|" → (t = "<" ∨ t = ">" ∨ t = ">>" ∨ t = "2>") →
          ParseOk max_cmds (t :: ts) cmd_idx
            (parseLoop max_cmds ts1 (setStage g cmds cmd_idx) cmd_idx arg_idx
              (w ++ [cmd_idx])) := by
        intro g f ts1 hts hbar hop
        have hl : ts1.length ≤ n := by rw [hts] at hlen1; simp at hlen1; omega
        obtain ⟨a1, a2, a3⟩ := ih ts1 (setStage g cmds cmd_idx) cmd_idx arg_idx
          (w ++ [cmd_idx]) hl hidx hw1
        refine ⟨a1, ?_, a3⟩
        rw [hts, separators_redir f ts1 hbar hop]
        exact a2
      unfold parseLoop
      by_cases hbar : t = "|"
      · subst hbar
        simp only [if_true]
        by_cases hfull : ((cmd_idx + 1 : Nat) : Int) ≥ max_cmds
        · simp only [hfull, if_true]
          exact hfail _ _ hw1
        · simp only [hfull, if_false]
          have hidx1 : ((cmd_idx + 1 : Nat) : Int) < max_cmds := by omega
          have hw2 : ∀ x ∈ w ++ [cmd_idx, cmd_idx + 1], (x : Int) < max_cmds := by
            intro x hx
            simp only [List.mem_append, List.mem_cons, List.mem_singleton, List.not_mem_nil,
              or_false] at hx
            rcases hx with hx | hx | hx
            · exact hw x hx
            · rw [hx]; exact hidx
            · rw [hx]; exact hidx1
          obtain ⟨a1, a2, a3⟩ := ih ts (setStage (fun _ => zeroCommand) cmds (cmd_idx + 1))
            (cmd_idx + 1) 0 (w ++ [cmd_idx, cmd_idx + 1]) hlen1 hidx1 hw2
          refine ⟨a1, ?_, a3⟩
          rcases a2 with a2 | ⟨a2, a2b⟩
          · exact Or.inl a2
          · refine Or.inr ⟨?_, a2b⟩
            rw [a2, separators_bar]
            push_cast
            omega
      · rw [if_neg hbar]
        by_cases h1 : t = "<"
        · rw [if_pos h1]
          cases ts with
          | nil => exact hfail _ _ hw
          | cons f ts1 => exact hredir _ f ts1 rfl hbar (Or.inl h1)
        · rw [if_neg h1]
          by_cases h2 : t = ">"
          · rw [if_pos h2]
            cases ts with
            | nil => exact hfail _ _ hw
            | cons f ts1 => exact hredir _ f ts1 rfl hbar (Or.inr (Or.inl h2))
          · rw [if_neg h2]
            by_cases h3 : t = ">>"
            · rw [if_pos h3]
              cases ts with
              | nil => exact hfail _ _ hw
              | cons f ts1 => exact hredir _ f ts1 rfl hbar (Or.inr (Or.inr (Or.inl h3)))
            · rw [if_neg h3]
              by_cases h4 : t = "2>"
              · rw [if_pos h4]
                cases ts with
                | nil => exact hfail _ _ hw
                | cons f ts1 => exact hredir _ f ts1 rfl hbar (Or.inr (Or.inr (Or.inr h4)))
              · rw [if_neg h4]
                by_cases hargs : arg_idx ≥ MAX_ARGS - 1
                · simp only [hargs, if_true]
                  exact hfail _ _ hw
                · simp only [hargs, if_false]
                  obtain ⟨a1, a2, a3⟩ := ih ts (setStage (pushArg t) cmds cmd_idx) cmd_idx
                    (arg_idx + 1) (w ++ [cmd_idx]) hlen1 hidx hw1
                  refine ⟨a1, ?_, a3⟩
                  rw [separators_arg ts hbar (by simp [h1, h2, h3, h4])]
                  exact a2

theorem parse_pipeline_ok (tokens : List String) (cmds : List Command) (max_cmds : Int)
    (hmax : 1 ≤ max_cmds) (hne : tokens ≠ []) :
    ParseOk max_cmds tokens 0 (parse_pipeline tokens cmds max_cmds) := by
  have hlen : ¬ tokens.length = 0 := fun h => hne (List.length_eq_zero.1 h)
  unfold parse_pipeline
  rw [if_neg hlen]
  refine parseLoop_ok max_cmds tokens.length tokens _ 0 0 [0] (Nat.le_refl _) (by simpa using hmax) ?_
  intro x hx
  rw [List.mem_singleton.1 hx]
  simpa using hmax

/-- C11: for every token list, array and `max_cmds >= 1`: `parse_pipeline`
stores only to elements of `cmds` with index below `max_cmds`; it returns -1
when the tokens hold at least `max_cmds` separators `|`, that is, describe
more than `max_cmds` stages; and its result is -1, or 0 for no tokens, or the
number of stages (separators plus one), between 1 and `max_cmds`.  When the
result is negative, the loop body of `main` leaves the globals unchanged and
only writes messages to `stderr`: no process and no job is created. -/
theorem parse_pipeline_stage_bound :
    (∀ (tokens : List String) (cmds : List Command) (max_cmds : Int), 1 ≤ max_cmds →
      (∀ x ∈ (parse_pipeline tokens cmds max_cmds).writes, (x : Int) < max_cmds) ∧
      (max_cmds ≤ separators tokens → (parse_pipeline tokens cmds max_cmds).ret = -1) ∧
      ((parse_pipeline tokens cmds max_cmds).ret = -1 ∨
        (tokens = [] ∧ (parse_pipeline tokens cmds max_cmds).ret = 0) ∨
        (tokens ≠ [] ∧ (parse_pipeline tokens cmds max_cmds).ret = separators tokens + 1 ∧
          1 ≤ (parse_pipeline tokens cmds max_cmds).ret ∧
          (parse_pipeline tokens cmds max_cmds).ret ≤ max_cmds))) ∧
    (∀ (sh : Shell) (tokens : List String) (cmds0 : List Command) (line : String) (sys : Sys),
      (parse_pipeline (stripAmp tokens).1 cmds0 MAX_CMDS).ret < 0 →
      (mainBody sh tokens cmds0 line sys).sh = sh ∧
      (mainBody sh tokens cmds0 line sys).out = Outcome.returned 0 ∧
      (∀ e ∈ (mainBody sh tokens cmds0 line sys).eff, ∃ s, e = Eff.stderr s)) := by
  constructor
  · intro tokens cmds max_cmds hmax
    by_cases hne : tokens = []
    · subst hne
      refine ⟨by simp [parse_pipeline], ?_, Or.inr (Or.inl ⟨rfl, by simp [parse_pipeline]⟩)⟩
      intro h
      simp only [separators] at h
      omega
    · obtain ⟨a1, a2, _⟩ := parse_pipeline_ok tokens cmds max_cmds hmax hne
      refine ⟨a1, ?_, ?_⟩
      · intro h
        rcases a2 with a2 | ⟨a2, a2b⟩
        · exact a2
        · omega
      · rcases a2 with a2 | ⟨a2, a2b⟩
        · exact Or.inl a2
        · exact Or.inr (Or.inr ⟨hne, by omega, by omega, a2b⟩)
  · intro sh tokens cmds0 line sys hneg
    have hne : (stripAmp tokens).1 ≠ [] := by
      intro h
      rw [h] at hneg
      simp [parse_pipeline] at hneg
    have hlen1 : ¬ (stripAmp tokens).1.length = 0 := fun h => hne (List.length_eq_zero.1 h)
    have hlen0 : ¬ tokens.length = 0 := by
      intro h
      have : tokens = [] := List.length_eq_zero.1 h
      rw [this] at hne
      exact hne (by simp [stripAmp])
    obtain ⟨_, _, a3⟩ := parse_pipeline_ok (stripAmp tokens).1 cmds0 MAX_CMDS (by decide) hne
    unfold mainBody
    simp only [hlen0, hlen1, hneg, if_false, if_true, true_and]
    intro e he
    rcases List.mem_append.1 he with he | he
    · exact a3 e he
    · exact ⟨_, List.mem_singleton.1 he⟩

set_option maxRecDepth 100000 in
theorem parse_pipeline_stage_bound_witness :
    ((1 : Int) ≤ MAX_CMDS ∧ (MAX_CMDS : Int) ≤ separators longPipeline ∧
      (∀ x ∈ (parse_pipeline longPipeline zeroCmds MAX_CMDS).writes, (x : Int) < MAX_CMDS) ∧
      (parse_pipeline longPipeline zeroCmds MAX_CMDS).ret = -1) ∧
    ((parse_pipeline (stripAmp (longPipeline ++ ["&"])).1 zeroCmds MAX_CMDS).ret < 0 ∧
      (mainBody (initShell 7) (longPipeline ++ ["&"]) zeroCmds "a | ... | a &"
        (sysOk 100 [])).sh = initShell 7 ∧
      (∀ e ∈ (mainBody (initShell 7) (longPipeline ++ ["&"]) zeroCmds "a | ... | a &"
        (sysOk 100 [])).eff, ∃ s, e = Eff.stderr s)) :=
  have h1 := parse_pipeline_stage_bound.1 longPipeline zeroCmds MAX_CMDS (by decide)
  have h2 := parse_pipeline_stage_bound.2 (initShell 7) (longPipeline ++ ["&"]) zeroCmds
    "a | ... | a &" (sysOk 100 []) (by decide)
  ⟨⟨by decide, by decide, h1.1, h1.2.1 (by decide)⟩, ⟨by decide, h2.1, h2.2.2⟩⟩

set_option maxRecDepth 100000 in
/-- Runs of the parser and of the loop body of `main`: 64 stages are accepted,
65 are rejected with a message and nothing is launched. -/
theorem parse_pipeline_runs :
    (parse_pipeline (longPipeline.drop 2) zeroCmds MAX_CMDS).ret = 64 ∧
    (parse_pipeline longPipeline zeroCmds MAX_CMDS).ret = -1 ∧
    (parse_pipeline longPipeline zeroCmds MAX_CMDS).eff =
      [Eff.stderr "too many pipeline stages\n"] ∧
    mainBody (initShell 7) longPipeline zeroCmds "a | ... | a" (sysOk 100 []) =
      ⟨initShell 7, [Eff.stderr "too many pipeline stages\n", Eff.stderr "parse error\n"],
        Outcome.returned 0⟩ ∧
    (parse_pipeline ["cat", "<", "f", "|", "wc", ">>", "o"] zeroCmds MAX_CMDS).cmds.take 2 =
      [{ argv := ["cat"], infile := some "f", outfile := none, out_append := 0, errfile := none },
        { argv := ["wc"], infile := none, outfile := some "o", out_append := 1,
          errfile := none }] := by
  decide

end TinyShell
